import Mathlib

/-!
# macrogaura: RGB keyboard control for Asus ROG laptops

A shallow embedding of `macrogaura.c` and the properties of its protocol
encoder, argument parser and transmission loop.

Conventions of the embedding

* `uint8_t` values are natural numbers; a conversion to `uint8_t` that can
  change the value is written `% 256`.
* `int`, `long` and the `Speed` enumeration are integers.
* A C array of fixed size is a `Mathlib.Vector` of that size.  A read whose
  index the C code does not bound (`SPEED_BYTE_VALUES[speed - 1]`,
  `pMessages->messages[i]`) returns an `Option`; `none` stands for the
  out-of-bounds access.
* A function that writes through a pointer takes the pointee and returns its
  new value.
* A C string is the list of its bytes before the terminating NUL.
* Text written to `stdout` and `stderr` is not part of the model.
-/

namespace Macrogaura

/-! ## Constants and data structures -/

abbrev MESSAGE_LENGTH : Nat := 17
abbrev MAX_NUM_MESSAGES : Nat := 6
abbrev MAX_NUM_COLORS : Nat := 4
abbrev MAX_FUNCNAME_LEN : Nat := 32

/-- The struct `Color`: three `uint8_t` channels. -/
structure Color where
  nRed : Nat
  nGreen : Nat
  nBlue : Nat
deriving DecidableEq, Repr

/-- The enumeration `Speed`, an `int` in C: `Slow = 1`, `Medium`, `Fast`. -/
abbrev Speed := Int

abbrev Slow : Speed := 1
abbrev Medium : Speed := 2
abbrev Fast : Speed := 3

/-- The struct `Arguments`: `colors[MAX_NUM_COLORS]` and `speed`. -/
structure Arguments where
  colors : Mathlib.Vector Color MAX_NUM_COLORS
  speed : Speed
deriving DecidableEq

/-- One report buffer, `uint8_t[MESSAGE_LENGTH]`. -/
abbrev Message := Mathlib.Vector Nat MESSAGE_LENGTH

/-- The struct `Messages`: `nMessages` and `messages[MAX_NUM_MESSAGES][MESSAGE_LENGTH]`. -/
structure Messages where
  nMessages : Int
  messages : Mathlib.Vector Message MAX_NUM_MESSAGES
deriving DecidableEq

/-! ## USB protocol for the RGB keyboard -/

def SPEED_BYTE_VALUES : List Nat := [0xe1, 0xeb, 0xf5]

/-- The function `speedByteValue`: `SPEED_BYTE_VALUES[speed - 1]`, `none` when the
index is outside the three-element table. -/
def speedByteValue (speed : Speed) : Option Nat :=
  if 0 ≤ speed - 1 then SPEED_BYTE_VALUES[(speed - 1).toNat]? else none

def MESSAGE_SET : Message :=
  ⟨[0x5d, 0xb5, 0x00, 0x00, 0x00, 0x00, 0x00, 0x00, 0x00,
    0x00, 0x00, 0x00, 0x00, 0x00, 0x00, 0x00, 0x00], rfl⟩

def MESSAGE_APPLY : Message :=
  ⟨[0x5d, 0xb4, 0x00, 0x00, 0x00, 0x00, 0x00, 0x00, 0x00,
    0x00, 0x00, 0x00, 0x00, 0x00, 0x00, 0x00, 0x00], rfl⟩

/-- The call `memset(msg, 0, MESSAGE_LENGTH)` on a buffer of `MESSAGE_LENGTH` bytes. -/
def memsetZero (_msg : Message) : Message :=
  Mathlib.Vector.replicate MESSAGE_LENGTH 0

/-- The function `initMessage`. -/
def initMessage (msg : Message) : Message :=
  let msg := memsetZero msg
  let msg := msg.set 0 0x5d
  msg.set 1 0xb3

/-- The function `single_static`. -/
def single_static (args : Arguments) (outputs : Messages) : Option (Arguments × Messages) :=
  let m := initMessage (outputs.messages.get 0)
  let m := m.set 4 (args.colors.get 0).nRed
  let m := m.set 5 (args.colors.get 0).nGreen
  let m := m.set 6 (args.colors.get 0).nBlue
  some (args, { nMessages := 1, messages := outputs.messages.set 0 m })

/-- The function `single_breathing`. -/
def single_breathing (args : Arguments) (outputs : Messages) : Option (Arguments × Messages) := do
  let m := initMessage (outputs.messages.get 0)
  let m := m.set 3 1
  let m := m.set 4 (args.colors.get 0).nRed
  let m := m.set 5 (args.colors.get 0).nGreen
  let m := m.set 6 (args.colors.get 0).nBlue
  let m := m.set 7 (← speedByteValue args.speed)
  let m := m.set 9 1
  let m := m.set 10 (args.colors.get 1).nRed
  let m := m.set 11 (args.colors.get 1).nGreen
  let m := m.set 12 (args.colors.get 1).nBlue
  some (args, { nMessages := 1, messages := outputs.messages.set 0 m })

/-- The function `single_colorcycle`. -/
def single_colorcycle (args : Arguments) (outputs : Messages) : Option (Arguments × Messages) := do
  let m := initMessage (outputs.messages.get 0)
  let m := m.set 3 2
  let m := m.set 4 0xff
  let m := m.set 7 (← speedByteValue args.speed)
  some (args, { nMessages := 1, messages := outputs.messages.set 0 m })

/-- The zone index `i` of the loops `for (int i = 0; i < 4; ++i)` as an index of
`outputs->messages`. -/
def zoneSlot (i : Fin 4) : Fin MAX_NUM_MESSAGES := Fin.castLE (by decide) i

/-- The loop body of `multi_static` at zone index `i`. -/
def multi_static_body (args : Arguments) (outputs : Messages) (i : Fin 4) : Messages :=
  let m := initMessage (outputs.messages.get (zoneSlot i))
  let m := m.set 2 ((i.val + 1) % 256)
  let m := m.set 4 (args.colors.get i).nRed
  let m := m.set 5 (args.colors.get i).nGreen
  let m := m.set 6 (args.colors.get i).nBlue
  let m := m.set 7 0xeb
  { outputs with messages := outputs.messages.set (zoneSlot i) m }

/-- The function `multi_static`. -/
def multi_static (args : Arguments) (outputs : Messages) : Option (Arguments × Messages) :=
  let outputs := { outputs with nMessages := 4 }
  some (args, (List.finRange 4).foldl (multi_static_body args) outputs)

/-- The loop body of `multi_breathing` at zone index `i`. -/
def multi_breathing_body (args : Arguments) (outputs : Messages) (i : Fin 4) : Option Messages := do
  let m := initMessage (outputs.messages.get (zoneSlot i))
  let m := m.set 2 ((i.val + 1) % 256)
  let m := m.set 3 1
  let m := m.set 4 (args.colors.get i).nRed
  let m := m.set 5 (args.colors.get i).nGreen
  let m := m.set 6 (args.colors.get i).nBlue
  let m := m.set 7 (← speedByteValue args.speed)
  some { outputs with messages := outputs.messages.set (zoneSlot i) m }

/-- The function `multi_breathing`. -/
def multi_breathing (args : Arguments) (outputs : Messages) : Option (Arguments × Messages) := do
  let outputs := { outputs with nMessages := 4 }
  let outputs ← (List.finRange 4).foldlM (multi_breathing_body args) outputs
  some (args, outputs)

def RED : List Nat := [0xff, 0x00, 0x00]
def GREEN : List Nat := [0x00, 0xff, 0x00]
def BLUE : List Nat := [0x00, 0x00, 0xff]
def YELLOW : List Nat := [0xff, 0xff, 0x00]
def CYAN : List Nat := [0x00, 0xff, 0xff]
def MAGENTA : List Nat := [0xff, 0x00, 0xff]
def WHITE : List Nat := [0xff, 0xff, 0xff]
def BLACK : List Nat := [0x00, 0x00, 0x00]

/-- The call `memcpy(&(args->colors[k]), src, 3)`: the three bytes of `src` become the three
`uint8_t` fields of `colors[k]`, a struct of three bytes. -/
def memcpyColor (args : Arguments) (k : Fin MAX_NUM_COLORS) (src : List Nat) : Arguments :=
  { args with
    colors := args.colors.set k
      { nRed := src.getD 0 0, nGreen := src.getD 1 0, nBlue := src.getD 2 0 } }

/-- The function `red`. -/
def red (args : Arguments) (messages : Messages) : Option (Arguments × Messages) :=
  single_static (memcpyColor args 0 RED) messages

/-- The function `green`. -/
def green (args : Arguments) (messages : Messages) : Option (Arguments × Messages) :=
  single_static (memcpyColor args 0 GREEN) messages

/-- The function `blue`. -/
def blue (args : Arguments) (messages : Messages) : Option (Arguments × Messages) :=
  single_static (memcpyColor args 0 BLUE) messages

/-- The function `yellow`. -/
def yellow (args : Arguments) (messages : Messages) : Option (Arguments × Messages) :=
  single_static (memcpyColor args 0 YELLOW) messages

/-- The function `cyan`. -/
def cyan (args : Arguments) (messages : Messages) : Option (Arguments × Messages) :=
  single_static (memcpyColor args 0 CYAN) messages

/-- The function `magenta`. -/
def magenta (args : Arguments) (messages : Messages) : Option (Arguments × Messages) :=
  single_static (memcpyColor args 0 MAGENTA) messages

/-- The function `white`. -/
def white (args : Arguments) (messages : Messages) : Option (Arguments × Messages) :=
  single_static (memcpyColor args 0 WHITE) messages

/-- The function `black`. -/
def black (args : Arguments) (messages : Messages) : Option (Arguments × Messages) :=
  single_static (memcpyColor args 0 BLACK) messages

/-- The function `rainbow`. -/
def rainbow (args : Arguments) (messages : Messages) : Option (Arguments × Messages) :=
  let args := memcpyColor args 0 RED
  let args := memcpyColor args 1 YELLOW
  let args := memcpyColor args 2 CYAN
  let args := memcpyColor args 3 MAGENTA
  multi_static args messages

/-! ## C strings, `errno` and the C library -/

/-- A C string: its bytes before the terminating NUL. -/
abbrev CString := List Nat

/-- The bytes of an ASCII literal. -/
def cstr (s : String) : CString := s.toList.map Char.toNat

def strlen (s : CString) : Nat := s.length

/-- The byte `s[i]` of a C string; the byte at index `strlen s` is the terminating NUL. -/
def charAt (s : CString) (i : Nat) : Nat := s.getD i 0

/-- The C library predicate `isxdigit` in the C locale: `0-9`, `a-f`, `A-F`. -/
def isxdigit (c : Nat) : Bool :=
  (48 ≤ c && c ≤ 57) || (97 ≤ c && c ≤ 102) || (65 ≤ c && c ≤ 70)

/-- The C library predicate `isspace` in the C locale: space, `\t`, `\n`, `\v`, `\f`, `\r`. -/
def isspace (c : Nat) : Bool :=
  c == 32 || (9 ≤ c && c ≤ 13)

abbrev ERANGE : Int := 34
abbrev EINVAL : Int := 22
abbrev LONG_MAX : Int := 2 ^ 63 - 1
abbrev LONG_MIN : Int := -(2 ^ 63)

/-- The value of a byte read as a digit by `strtol`: `0-9`, then letters (either case) from 10. -/
def digitValue (c : Nat) : Option Nat :=
  if 48 ≤ c ∧ c ≤ 57 then some (c - 48)
  else if 97 ≤ c ∧ c ≤ 122 then some (c - 97 + 10)
  else if 65 ≤ c ∧ c ≤ 90 then some (c - 65 + 10)
  else none

/-- The digit of `c` in `base`, when `c` is one. -/
def digitIn (base c : Nat) : Option Nat :=
  match digitValue c with
  | some d => if d < base then some d else none
  | none => none

/-- The value of the longest run of `base` digits at the start of `s`, continuing from `acc`. -/
def strtolDigits (base : Nat) : CString → Nat → Nat
  | [], acc => acc
  | c :: cs, acc =>
    match digitIn base c with
    | some d => strtolDigits base cs (acc * base + d)
    | none => acc

/-- The sign that `strtol` reads: whether it is `-`, and the rest of the string. -/
def strtolSign (s : CString) : Bool × CString :=
  match s with
  | c :: t => if c = 45 then (true, t) else if c = 43 then (false, t) else (false, s)
  | [] => (false, s)

/-- Whether `s` starts with `0x` or `0X` followed by a hexadecimal digit. -/
def hasHexPrefix (s : CString) : Bool :=
  s.head? == some 48 && (s.tail.head? == some 120 || s.tail.head? == some 88) &&
    ((s.drop 2).head?.bind (digitIn 16)).isSome

/-- The base `strtol` converts in and the string its digits start at, after the sign. -/
def strtolBase (base : Nat) (s : CString) : Nat × CString :=
  if (base = 0 ∨ base = 16) ∧ hasHexPrefix s = true then (16, s.drop 2)
  else if base = 0 then (if s.head? = some 48 then 8 else 10, s)
  else (base, s)

/-- The conversion step of `strtol`: the digits of `base` at the start of `s`, negated when
`neg`; the value and the new `errno`. -/
def strtolConvert (neg : Bool) (base : Nat) (s : CString) (errno : Int) : Int × Int :=
  if (s.head?.bind (digitIn base)).isSome then
    let mag : Int := strtolDigits base s 0
    let v : Int := if neg then -mag else mag
    if v > LONG_MAX then (LONG_MAX, ERANGE)
    else if v < LONG_MIN then (LONG_MIN, ERANGE)
    else (v, errno)
  else (0, EINVAL)

/-- The C library function `strtol(nptr, NULL, base)` for `base` 0 or 2..36 with a 64-bit `long`:
white space is skipped, then an optional sign, then for base 0 or 16 an optional `0x`, then the
longest run of digits of the base is converted and what follows it is ignored.  Returns the
value and the new `errno`: `ERANGE` with the value clamped when it does not fit a `long`,
`EINVAL` with value 0 when there is no digit, otherwise `errno` is left as it was. -/
def strtol (nptr : CString) (base : Nat) (errno : Int) : Int × Int :=
  let signed := strtolSign (nptr.dropWhile isspace)
  let based := strtolBase base signed.2
  strtolConvert signed.1 based.1 based.2 errno

/-- The C library function `strncmp(s1, s2, n)`: the first difference among at most `n` bytes,
the terminating NUL of either string included, as a difference of `unsigned char` values;
bytes after a NUL are not compared. -/
def strncmp : CString → CString → Nat → Int
  | _, _, 0 => 0
  | [], [], _ + 1 => 0
  | [], b :: _, _ + 1 => 0 - (b : Int)
  | a :: _, [], _ + 1 => (a : Int) - 0
  | a :: s, b :: t, n + 1 => if a = b then strncmp s t n else (a : Int) - (b : Int)

/-- The calls of `getopt(argc, argv, "v")` that read the option letters of one argument
(the bytes after its `-`), with the `case 'v'` of `parseArguments` applied to each: the new
`verbose`, and whether every letter was `v` (any other letter makes `getopt` return `'?'`). -/
def scanLetters : CString → Int → Int × Bool
  | [], verbose => (verbose, true)
  | c :: rest, verbose => if c = 118 then scanLetters rest 1 else (verbose, false)

/-- The loop `while ((nRetval = getopt(argc, argv, "v")) != -1)` of `parseArguments` with the
`getopt` of the BSD C library, over the arguments from `argv[optind]` on: the new `verbose`
and the final `optind`, or `none` for it when `getopt` returned `'?'`.  Scanning stops at the
first argument that does not start with `-`, at a lone `-`, and after `--`. -/
def scanOptions : List CString → Nat → Int → Int × Option Nat
  | [], optind, verbose => (verbose, some optind)
  | arg :: rest, optind, verbose =>
    match arg with
    | 45 :: c :: letters =>
      if c = 45 ∧ letters = [] then (verbose, some (optind + 1))
      else
        match scanLetters (c :: letters) verbose with
        | (verbose, true) => scanOptions rest (optind + 1) verbose
        | (verbose, false) => (verbose, none)
    | _ => (verbose, some optind)

/-! ## Command line argument parsing -/

/-- What a parsing function leaves behind: its return value, the object behind its result
pointer, and `errno`. -/
structure Parsed (α : Type) where
  nRetval : Int
  result : α
  errno : Int
deriving DecidableEq, Repr

/-- The function `parseColor`; `pResult` is the `Color` behind the pointer on entry. -/
def parseColor (arg : CString) (pResult : Color) (errno : Int) : Parsed Color :=
  if strlen arg ≠ 6 then ⟨-1, pResult, errno⟩
  else if !(List.range 6).all (fun i => isxdigit (charAt arg i)) then ⟨-1, pResult, errno⟩
  else
    let r := strtol arg 16 errno
    let v : Nat := (r.1 % 2 ^ 32).toNat
    let errno := r.2
    if errno = ERANGE then ⟨-1, pResult, errno⟩
    else
      ⟨0, { nRed := (v >>> 16) &&& 0xff, nGreen := (v >>> 8) &&& 0xff, nBlue := v &&& 0xff },
        errno⟩

/-- The function `parseSpeed`; `pResult` is the `Speed` behind the pointer on entry. -/
def parseSpeed (arg : CString) (pResult : Speed) (errno : Int) : Parsed Speed :=
  let r := strtol arg 0 errno
  let nSpeed := r.1
  let errno := r.2
  if errno = ERANGE ∨ nSpeed < 1 ∨ nSpeed > 3 then ⟨-1, pResult, errno⟩
  else ⟨0, nSpeed, errno⟩

/-- The type of the encoders, `void (*)(Arguments *args, Messages *outputs)`. -/
abbrev Encoder := Arguments → Messages → Option (Arguments × Messages)

/-- The struct `FunctionRecord`. -/
structure FunctionRecord where
  szName : CString
  function : Encoder
  nColors : Int
  nSpeed : Int

def FUNCTION_RECORDS : List FunctionRecord :=
  [⟨cstr "single_static", single_static, 1, 0⟩,
   ⟨cstr "single_breathing", single_breathing, 2, 1⟩,
   ⟨cstr "single_colorcycle", single_colorcycle, 0, 1⟩,
   ⟨cstr "multi_static", multi_static, 4, 0⟩,
   ⟨cstr "multi_breathing", multi_breathing, 4, 1⟩,
   ⟨cstr "red", red, 0, 0⟩,
   ⟨cstr "green", green, 0, 0⟩,
   ⟨cstr "blue", blue, 0, 0⟩,
   ⟨cstr "yellow", yellow, 0, 0⟩,
   ⟨cstr "cyan", cyan, 0, 0⟩,
   ⟨cstr "magenta", magenta, 0, 0⟩,
   ⟨cstr "white", white, 0, 0⟩,
   ⟨cstr "black", black, 0, 0⟩,
   ⟨cstr "rainbow", rainbow, 0, 0⟩]

def NUM_FUNCTION_RECORDS : Int := FUNCTION_RECORDS.length

/-- The loop of `parseArguments` that identifies the function the user has asked for, over the
records it still has to compare; `none` is a `pDesiredFunc` left at 0. -/
def findFunction (name : CString) : List FunctionRecord → Option FunctionRecord
  | [] => none
  | record :: rest =>
    if strncmp name record.szName MAX_FUNCNAME_LEN = 0 then some record
    else findFunction name rest

/-- The loop of `parseArguments` that parses the argument values, over the arguments it still
has to visit: its exit (0 when the loop ran to its end, -1 for the `return -1`), the local
`args` and `errno`; `none` when `args.colors[nColors]` is outside the array. -/
def parseValues (declaredColors : Int) :
    List CString → Arguments → Nat → Int → Option (Parsed Arguments)
  | [], args, _, errno => some ⟨0, args, errno⟩
  | arg :: rest, args, nColors, errno =>
    if (nColors : Int) < declaredColors then
      if h : nColors < MAX_NUM_COLORS then
        let parsed := parseColor arg (args.colors.get ⟨nColors, h⟩) errno
        let args := { args with colors := args.colors.set ⟨nColors, h⟩ parsed.result }
        if parsed.nRetval < 0 then some ⟨-1, args, parsed.errno⟩
        else parseValues declaredColors rest args (nColors + 1) parsed.errno
      else none
    else
      let parsed := parseSpeed arg args.speed errno
      let args := { args with speed := parsed.result }
      if parsed.nRetval < 0 then some ⟨-1, args, parsed.errno⟩
      else parseValues declaredColors rest args nColors parsed.errno

/-- What `parseArguments` leaves behind: its return value, the `Messages` behind the pointer,
the calls `pDesiredFunc->function(&args, messages)` it made (the name of the record and the
`args` passed), `errno` and `verbose`. -/
structure ParseOutcome where
  nRetval : Int
  messages : Messages
  calls : List (CString × Arguments)
  errno : Int
  verbose : Int
deriving DecidableEq

/-- The function `parseArguments`.  `argc` is the length of `argv`; `messages` is the object
behind the pointer on entry, `args` the content of the uninitialised local on entry, `errno`
and `verbose` the globals on entry; `optind` starts at 1.  `none` is an access outside an
array. -/
def parseArguments (argv : List CString) (messages : Messages) (args : Arguments)
    (errno verbose : Int) : Option ParseOutcome :=
  let argc : Int := argv.length
  match scanOptions (argv.drop 1) 1 verbose with
  | (verbose, none) => some ⟨-1, messages, [], errno, verbose⟩
  | (verbose, some optind) =>
    let nArgs : Int := argc - optind
    let pDesiredFunc :=
      if nArgs > 0 then findFunction (argv.getD optind []) FUNCTION_RECORDS else none
    match pDesiredFunc with
    | none => some ⟨-1, messages, [], errno, verbose⟩
    | some desired =>
      if nArgs ≠ 1 + desired.nColors + desired.nSpeed then
        some ⟨-1, messages, [], errno, verbose⟩
      else
        match parseValues desired.nColors (argv.drop (optind + 1)) args 0 errno with
        | none => none
        | some parsed =>
          if parsed.nRetval < 0 then some ⟨-1, messages, [], parsed.errno, verbose⟩
          else
            match desired.function parsed.result messages with
            | none => none
            | some (_, outputs) =>
              some ⟨0, outputs, [(desired.szName, parsed.result)], parsed.errno, verbose⟩

/-! ## IOHIDDevice interface -/

/-- An attached HID device as `handleUsb` sees it: its `IOHIDDeviceRef` and the two integer
properties it reads; `none` is a property that is absent or not a `CFNumber`. -/
structure HIDDevice where
  ref : Nat
  vendorID : Option Int
  productID : Option Int
deriving DecidableEq, Repr

/-- The function `get_int_property`, on the property it looks up. -/
def get_int_property (prop : Option Int) : Int :=
  match prop with
  | some value => value
  | none => 0

inductive IOHIDReportType where
  | kIOHIDReportTypeInput
  | kIOHIDReportTypeOutput
  | kIOHIDReportTypeFeature
deriving DecidableEq, Repr

/-- One call of `IOHIDDeviceSetReport(device, reportType, reportID, report, reportLength)`. -/
structure Report where
  device : Nat
  reportType : IOHIDReportType
  reportID : Nat
  report : Message
  reportLength : Nat
deriving DecidableEq

abbrev ASUS_VENDOR_ID : Int := 0x0b05
def ASUS_PRODUCT_IDS : List Int := [0x1854, 0x1869, 0x1866]

abbrev kIOReturnError : Int := 0xe00002bc - 2 ^ 32

/-- What the host HID subsystem answers to `handleUsb`: whether `IOHIDManagerCreate` returned a
manager, the `IOReturn` of `IOHIDManagerOpen`, and the devices `IOHIDManagerCopyDevices`
copied out, in the order `CFSetGetValues` lists them (`none` for a NULL set). -/
structure HIDHost where
  managerCreated : Bool
  openReturn : Int
  devices : Option (List HIDDevice)

/-- The call `IOHIDDeviceSetReport(dev, kIOHIDReportTypeFeature, msg[0], msg, MESSAGE_LENGTH)`. -/
def setFeatureReport (dev : HIDDevice) (msg : Message) : Report :=
  { device := dev.ref, reportType := .kIOHIDReportTypeFeature, reportID := msg.get 0,
    report := msg, reportLength := MESSAGE_LENGTH }

/-- The loop `for (int i = 0; i < pMessages->nMessages; ++i)` of `handleUsb` over the indices
it still has to visit; `none` when `messages[i]` is read outside the array. -/
def sendMessages (dev : HIDDevice) (pMessages : Messages) : List Nat → Option (List Report)
  | [] => some []
  | i :: rest =>
    if h : i < MAX_NUM_MESSAGES then
      (sendMessages dev pMessages rest).map
        (fun sent => setFeatureReport dev (pMessages.messages.get ⟨i, h⟩) :: sent)
    else none

/-- The body of `if (dev_pid == ASUS_PRODUCT_IDS[i])` in `handleUsb`: the messages, then
`MESSAGE_SET`, then `MESSAGE_APPLY`. -/
def sendAll (dev : HIDDevice) (pMessages : Messages) : Option (List Report) :=
  (sendMessages dev pMessages (List.range pMessages.nMessages.toNat)).map
    (fun sent => sent ++ [setFeatureReport dev MESSAGE_SET, setFeatureReport dev MESSAGE_APPLY])

/-- The loop `for (int i = 0; i < NUM_ASUS_PRODUCTS; ++i)` of `handleUsb` over the product ids
it still has to compare. -/
def matchProducts (dev : HIDDevice) (dev_pid : Int) (pMessages : Messages) :
    List Int → Option (List Report)
  | [] => some []
  | pid :: rest =>
    if dev_pid = pid then
      (sendAll dev pMessages).bind fun sent =>
        (matchProducts dev dev_pid pMessages rest).map fun later => sent ++ later
    else matchProducts dev dev_pid pMessages rest

/-- The loop `for (int i = 0; i < deviceCount; i++)` of `handleUsb` over the devices it still
has to visit. -/
def visitDevices (pMessages : Messages) : List HIDDevice → Option (List Report)
  | [] => some []
  | dev :: rest =>
    let dev_vid := get_int_property dev.vendorID
    let dev_pid := get_int_property dev.productID
    let here :=
      if dev_vid = ASUS_VENDOR_ID then matchProducts dev dev_pid pMessages ASUS_PRODUCT_IDS
      else some []
    here.bind fun sent => (visitDevices pMessages rest).map fun later => sent ++ later

/-- The function `handleUsb`: its return value and the reports it wrote, in order. -/
def handleUsb (host : HIDHost) (pMessages : Messages) : Option (Int × List Report) :=
  if !host.managerCreated then some (0, [])
  else if host.openReturn = kIOReturnError then some (0, [])
  else
    match host.devices with
    | none => some (0, [])
    | some devices => (visitDevices pMessages devices).map fun sent => (0, sent)

/-! ## Main function -/

/-- The function `main`: its exit status and the reports written.  `messages` and `args` are
the contents of the uninitialised locals of `main` and `parseArguments`; `errno` and `verbose`
are 0 at program start.  `main` has no `return` statement, so the exit status is that of
reaching the end of `main`, 0. -/
def main (argv : List CString) (host : HIDHost) (messages : Messages) (args : Arguments) :
    Option (Int × List Report) :=
  match parseArguments argv messages args 0 0 with
  | none => none
  | some outcome =>
    if outcome.nRetval = 0 then
      (handleUsb host outcome.messages).map fun written => (0, written.2)
    else some (0, [])

/-! ## Specification side: hexadecimal tokens -/

/-- Specification side: the characters `[0-9a-fA-F]`. -/
def isHexChar (c : Nat) : Bool := (cstr "0123456789abcdefABCDEF").contains c

/-- Specification side: the hexadecimal digit, in lower case, of a value below 16. -/
def hexChar (d : Nat) : Nat := (cstr "0123456789abcdef").getD d 0

/-- Specification side: a byte written as two hexadecimal digits. -/
def byteHex (b : Nat) : CString := [hexChar (b / 16), hexChar (b % 16)]

/-- Specification side: a color written as the six hexadecimal digits `RRGGBB`. -/
def colorHex (c : Color) : CString := byteHex c.nRed ++ byteHex c.nGreen ++ byteHex c.nBlue

/-- Specification side: an ASCII letter in lower case. -/
def toLowerAscii (c : Nat) : Nat := if 65 ≤ c ∧ c ≤ 90 then c + 32 else c

/-- Specification side: a token that matches `[0-9a-fA-F]{6}`. -/
def matchesHex6 (t : CString) : Prop := t.length = 6 ∧ ∀ c ∈ t, isHexChar c = true

instance (t : CString) : Decidable (matchesHex6 t) := by
  unfold matchesHex6
  infer_instance

/-- Specification side: the value of a string of hexadecimal digits. -/
def hexValue (t : CString) : Nat := t.foldl (fun acc c => 16 * acc + (digitValue c).getD 0) 0

/-! ## Specification side: speed tokens -/

/-- Specification side: `lit` is an integer literal of C with value `v`, written in `base` with
the one significant digit `v`: decimal `v`, octal `0` zeros `v`, or hexadecimal `0x` zeros `v`
(`0X` as well). -/
def IsSmallLiteral (base : Nat) (lit : CString) (v : Nat) : Prop :=
  ∃ zeros : CString, (∀ z ∈ zeros, z = 48) ∧
    ((base = 10 ∧ lit = [48 + v]) ∨
     (base = 8 ∧ lit = 48 :: (zeros ++ [48 + v])) ∨
     (base = 16 ∧ (lit = 48 :: 120 :: (zeros ++ [48 + v]) ∨
        lit = 48 :: 88 :: (zeros ++ [48 + v]))))

/-- Specification side: `arg` is white space, an optional `+`, an integer literal with value
`v`, and then anything that does not start with a further digit of the literal's base. -/
def StartsWithLiteral (arg : CString) (v : Nat) : Prop :=
  ∃ ws sign base lit rest, arg = ws ++ (sign ++ (lit ++ rest)) ∧
    (∀ c ∈ ws, isspace c = true) ∧ (sign = [] ∨ sign = [43]) ∧
    IsSmallLiteral base lit v ∧ rest.head?.bind (digitIn base) = none

/-! ## Specification side: device selection and transmission -/

/-- Specification side: the device selector: vendor id 0x0b05 and product id one of 0x1854,
0x1869, 0x1866. -/
def isTargetDevice (d : HIDDevice) : Bool :=
  get_int_property d.vendorID == 0x0b05 &&
    (get_int_property d.productID == 0x1854 || get_int_property d.productID == 0x1869 ||
      get_int_property d.productID == 0x1866)

/-- Specification side: a feature report of 17 bytes to device `d` whose report id is byte 0 of
the message. -/
def featureReport (d : HIDDevice) (m : Message) : Report :=
  { device := d.ref, reportType := .kIOHIDReportTypeFeature, reportID := m.get 0, report := m,
    reportLength := 17 }

/-- Specification side: what one selected device is to receive: the messages
`messages[0..N-1]`, then "set" `5d b5 00..00`, then "apply" `5d b4 00..00`. -/
def expectedReports (d : HIDDevice) (m : Messages) : List Report :=
  (m.messages.toList.take m.nMessages.toNat).map (featureReport d) ++
    [featureReport d ⟨[0x5d, 0xb5, 0, 0, 0, 0, 0, 0, 0, 0, 0, 0, 0, 0, 0, 0, 0], rfl⟩,
     featureReport d ⟨[0x5d, 0xb4, 0, 0, 0, 0, 0, 0, 0, 0, 0, 0, 0, 0, 0, 0, 0], rfl⟩]

/-! ## Specification side: encoders, registry and command lines -/

/-- Specification side: the single-color presets and the fixed color of each. -/
def presetColors : List (Encoder × Color) :=
  [(red, ⟨0xff, 0x00, 0x00⟩), (green, ⟨0x00, 0xff, 0x00⟩), (blue, ⟨0x00, 0x00, 0xff⟩),
   (yellow, ⟨0xff, 0xff, 0x00⟩), (cyan, ⟨0x00, 0xff, 0xff⟩), (magenta, ⟨0xff, 0x00, 0xff⟩),
   (white, ⟨0xff, 0xff, 0xff⟩), (black, ⟨0x00, 0x00, 0x00⟩)]

/-- Specification side: the colors red `ff0000`, yellow `ffff00`, cyan `00ffff` and magenta
`ff00ff`, in zone order. -/
def rainbowColors : Mathlib.Vector Color MAX_NUM_COLORS :=
  ⟨[⟨0xff, 0x00, 0x00⟩, ⟨0xff, 0xff, 0x00⟩, ⟨0x00, 0xff, 0xff⟩, ⟨0xff, 0x00, 0xff⟩], rfl⟩

/-- Specification side: the number of messages of each command: 4 for `multi_static`,
`multi_breathing` and `rainbow`, 1 for the others. -/
def messageCount (name : CString) : Int :=
  if name = cstr "multi_static" ∨ name = cstr "multi_breathing" ∨ name = cstr "rainbow" then 4
  else 1

/-- Specification side: `outputs` holds `n` messages of 17 bytes that each start `5d b3`. -/
def HoldsModeMessages (n : Int) (outputs : Messages) : Prop :=
  outputs.nMessages = n ∧
    ∀ i : Fin MAX_NUM_MESSAGES, (i.val : Int) < n →
      (outputs.messages.get i).toList.length = 17 ∧
        (outputs.messages.get i).get 0 = 0x5d ∧ (outputs.messages.get i).get 1 = 0xb3

/-- Specification side: the devices `handleUsb` gets to see: those of the set the host copies
out, none when the manager cannot be created or opened or the set is NULL. -/
def enumeratedDevices (host : HIDHost) : List HIDDevice :=
  if host.managerCreated = true ∧ host.openReturn ≠ kIOReturnError then
    match host.devices with
    | some devices => devices
    | none => []
  else []

/-- Specification side: the 14 registered command names. -/
def registeredNames : List CString :=
  [cstr "single_static", cstr "single_breathing", cstr "single_colorcycle", cstr "multi_static",
   cstr "multi_breathing", cstr "red", cstr "green", cstr "blue", cstr "yellow", cstr "cyan",
   cstr "magenta", cstr "white", cstr "black", cstr "rainbow"]

/-- Specification side: a list of bytes that is the content of a C string: no byte is NUL. -/
def IsCString (s : CString) : Prop := ∀ c ∈ s, c ≠ 0

instance (s : CString) : Decidable (IsCString s) := by
  unfold IsCString
  infer_instance

/-- Specification side: the color a hexadecimal token stands for: R = bits 16-23, G = bits
8-15, B = bits 0-7 of its value. -/
def colorOfToken (t : CString) : Color :=
  { nRed := hexValue t / 2 ^ 16 % 2 ^ 8, nGreen := hexValue t / 2 ^ 8 % 2 ^ 8,
    nBlue := hexValue t % 2 ^ 8 }

/-- Specification side: `verbose` after the options `-v` of a command line. -/
def verboseAfter (options : List CString) (verbose : Int) : Int :=
  if options = [] then verbose else 1

/-! ## Sample inputs -/

/-- Four colors `ff0000`, `123456`, `00ffff`, `abcdef` and the speed `Fast`. -/
def sampleArguments : Arguments :=
  { colors := ⟨[⟨0xff, 0x00, 0x00⟩, ⟨0x12, 0x34, 0x56⟩, ⟨0x00, 0xff, 0xff⟩,
      ⟨0xab, 0xcd, 0xef⟩], rfl⟩,
    speed := Fast }

/-- A `Messages` whose bytes are all zero. -/
def blankMessages : Messages :=
  { nMessages := 0,
    messages := Mathlib.Vector.replicate MAX_NUM_MESSAGES
      (Mathlib.Vector.replicate MESSAGE_LENGTH 0) }

/-- Two messages to send (`nMessages` = 2) and a stale third one behind them. -/
def sampleMessages : Messages :=
  { nMessages := 2,
    messages := ⟨[⟨[0x5d, 0xb3, 1, 0, 0xff, 0, 0, 0xeb, 0, 0, 0, 0, 0, 0, 0, 0, 0], rfl⟩,
      ⟨[0x5d, 0xb3, 2, 0, 0x12, 0x34, 0x56, 0xeb, 0, 0, 0, 0, 0, 0, 0, 0, 0], rfl⟩,
      ⟨[0x5d, 0xb3, 3, 0, 0, 0xff, 0xff, 0xeb, 0, 0, 0, 0, 0, 0, 0, 0, 0], rfl⟩,
      Mathlib.Vector.replicate MESSAGE_LENGTH 0, Mathlib.Vector.replicate MESSAGE_LENGTH 0,
      Mathlib.Vector.replicate MESSAGE_LENGTH 0], rfl⟩ }

/-- A mouse of another vendor, an Asus device that is not on the product list, an Aura
keyboard, and a device without the two integer properties. -/
def sampleDevices : List HIDDevice :=
  [{ ref := 1, vendorID := some 0x046d, productID := some 0xc077 },
   { ref := 2, vendorID := some 0x0b05, productID := some 0x1234 },
   { ref := 3, vendorID := some 0x0b05, productID := some 0x1869 },
   { ref := 4, vendorID := none, productID := none }]

/-- A host on which the manager is created and opened and that enumerates `sampleDevices`. -/
def sampleHost : HIDHost :=
  { managerCreated := true, openReturn := 0, devices := some sampleDevices }

/-- A command line with a command that is not registered. -/
def sampleUnknownArgv : List CString := [cstr "macrogaura", cstr "purple"]

/-- The record of `single_breathing`. -/
def sampleRecord : FunctionRecord := ⟨cstr "single_breathing", single_breathing, 2, 1⟩

/-- The record of `single_static`. -/
def sampleStaticRecord : FunctionRecord := ⟨cstr "single_static", single_static, 1, 0⟩

/-- Arguments that share `colors[0]` with `sampleArguments` and nothing else. -/
def sampleArguments2 : Arguments :=
  { colors := ⟨[⟨0xff, 0x00, 0x00⟩, ⟨0x00, 0x00, 0x00⟩, ⟨0x01, 0x02, 0x03⟩,
      ⟨0x04, 0x05, 0x06⟩], rfl⟩,
    speed := 77 }

/-- The command line `macrogaura -v single_colorcycle 2`. -/
def sampleCycleArgv : List CString :=
  [cstr "macrogaura", cstr "-v", cstr "single_colorcycle", cstr "2"]

/-- What `parseArguments` leaves behind on `sampleCycleArgv`. -/
def sampleCycleOutcome : ParseOutcome :=
  { nRetval := 0,
    messages :=
      { nMessages := 1,
        messages := blankMessages.messages.set 0
          ⟨[0x5d, 0xb3, 0, 2, 0xff, 0, 0, 0xeb, 0, 0, 0, 0, 0, 0, 0, 0, 0], rfl⟩ },
    calls := [(cstr "single_colorcycle", { sampleArguments with speed := 2 })],
    errno := 0,
    verbose := 1 }

/-- A host that enumerates a mouse of another vendor only. -/
def sampleHostWithoutKeyboard : HIDHost :=
  { managerCreated := true, openReturn := 0,
    devices := some [{ ref := 1, vendorID := some 0x046d, productID := some 0xc077 }] }

/-! ## Encoders: lemmas shared by the theorems below -/

theorem finRange_four : List.finRange 4 = [0, 1, 2, 3] := by decide

theorem speedByteValue_legal (s : Speed) (h1 : 1 ≤ s) (h3 : s ≤ 3) :
    ∃ b, speedByteValue s = some b ∧ (b = 0xe1 ∨ b = 0xeb ∨ b = 0xf5) := by
  interval_cases s
  · exact ⟨0xe1, rfl, by simp⟩
  · exact ⟨0xeb, rfl, by simp⟩
  · exact ⟨0xf5, rfl, by simp⟩

theorem single_static_eq (args : Arguments) (outputs : Messages) :
    single_static args outputs = some (args,
      { nMessages := 1,
        messages := outputs.messages.set 0
          ⟨[0x5d, 0xb3, 0, 0, (args.colors.get 0).nRed, (args.colors.get 0).nGreen,
            (args.colors.get 0).nBlue, 0, 0, 0, 0, 0, 0, 0, 0, 0, 0], rfl⟩ }) :=
  rfl

theorem single_breathing_eq (args : Arguments) (outputs : Messages) (sb : Nat)
    (hsb : speedByteValue args.speed = some sb) :
    single_breathing args outputs = some (args,
      { nMessages := 1,
        messages := outputs.messages.set 0
          ⟨[0x5d, 0xb3, 0, 1, (args.colors.get 0).nRed, (args.colors.get 0).nGreen,
            (args.colors.get 0).nBlue, sb, 0, 1, (args.colors.get 1).nRed,
            (args.colors.get 1).nGreen, (args.colors.get 1).nBlue, 0, 0, 0, 0], rfl⟩ }) := by
  simp only [single_breathing, hsb, Option.bind_eq_bind, Option.some_bind]
  rfl

theorem single_colorcycle_eq (args : Arguments) (outputs : Messages) (sb : Nat)
    (hsb : speedByteValue args.speed = some sb) :
    single_colorcycle args outputs = some (args,
      { nMessages := 1,
        messages := outputs.messages.set 0
          ⟨[0x5d, 0xb3, 0, 2, 0xff, 0, 0, sb, 0, 0, 0, 0, 0, 0, 0, 0, 0], rfl⟩ }) := by
  simp only [single_colorcycle, hsb, Option.bind_eq_bind, Option.some_bind]
  rfl

theorem multi_breathing_body_eq (args : Arguments) (outputs : Messages) (i : Fin 4) (sb : Nat)
    (hsb : speedByteValue args.speed = some sb) :
    multi_breathing_body args outputs i = some
      { outputs with
        messages := outputs.messages.set (zoneSlot i)
          ⟨[0x5d, 0xb3, (i.val + 1) % 256, 1, (args.colors.get i).nRed,
            (args.colors.get i).nGreen, (args.colors.get i).nBlue, sb,
            0, 0, 0, 0, 0, 0, 0, 0, 0], rfl⟩ } := by
  simp only [multi_breathing_body, hsb, Option.bind_eq_bind, Option.some_bind]
  rfl

theorem multi_breathing_eq (args : Arguments) (outputs : Messages) (sb : Nat)
    (hsb : speedByteValue args.speed = some sb) :
    multi_breathing args outputs = some (args,
      (List.finRange 4).foldl
        (fun out i =>
          { out with
            messages := out.messages.set (zoneSlot i)
              ⟨[0x5d, 0xb3, (i.val + 1) % 256, 1, (args.colors.get i).nRed,
                (args.colors.get i).nGreen, (args.colors.get i).nBlue, sb,
                0, 0, 0, 0, 0, 0, 0, 0, 0], rfl⟩ })
        { outputs with nMessages := 4 }) := by
  simp only [multi_breathing, finRange_four, List.foldlM, Option.bind_eq_bind, Option.some_bind,
    multi_breathing_body_eq _ _ _ sb hsb, Option.pure_def, List.foldl]

/-! ## Parsing: lemmas shared by the theorems below -/

theorem hexAlphabet_eq : cstr "0123456789abcdefABCDEF" =
    [48, 49, 50, 51, 52, 53, 54, 55, 56, 57, 97, 98, 99, 100, 101, 102, 65, 66, 67, 68, 69, 70] := by
  decide

theorem lowerHexAlphabet_eq : cstr "0123456789abcdef" =
    [48, 49, 50, 51, 52, 53, 54, 55, 56, 57, 97, 98, 99, 100, 101, 102] := by
  decide

theorem isHexChar_iff (c : Nat) : isHexChar c = true ↔ isxdigit c = true := by
  simp only [isHexChar, hexAlphabet_eq, isxdigit, List.contains_cons, List.contains_nil,
    Bool.or_false, Bool.or_eq_true, beq_iff_eq, Bool.and_eq_true, decide_eq_true_eq]
  omega

/-- A hexadecimal digit character has a digit value below 16 that `hexChar` writes back, and
it is neither white space, a sign, nor the `x` of a prefix. -/
theorem isxdigit_digit (c : Nat) (h : isxdigit c = true) :
    (digitValue c).getD 0 < 16 ∧ digitValue c = some ((digitValue c).getD 0) ∧
      digitIn 16 c = some ((digitValue c).getD 0) ∧
      hexChar ((digitValue c).getD 0) = toLowerAscii c ∧
      isspace c = false ∧ c ≠ 45 ∧ c ≠ 43 ∧ c ≠ 120 ∧ c ≠ 88 := by
  have hc : c ∈ [48, 49, 50, 51, 52, 53, 54, 55, 56, 57, 97, 98, 99, 100, 101, 102,
      65, 66, 67, 68, 69, 70] := by
    simp only [isxdigit, Bool.or_eq_true, Bool.and_eq_true, decide_eq_true_eq] at h
    simp only [List.mem_cons, List.mem_singleton, List.not_mem_nil, or_false]
    omega
  clear h
  revert c hc
  decide

theorem range_six : List.range 6 = [0, 1, 2, 3, 4, 5] := by decide

/-- On six hexadecimal digits `strtol` in base 16 returns their value and leaves `errno`. -/
theorem strtol_hex6 (a b c d e f : Nat) (errno : Int)
    (ha : isxdigit a = true) (hb : isxdigit b = true) (hc : isxdigit c = true)
    (hd : isxdigit d = true) (he : isxdigit e = true) (hf : isxdigit f = true) :
    strtol [a, b, c, d, e, f] 16 errno = (((hexValue [a, b, c, d, e, f] : Nat) : Int), errno) ∧
      hexValue [a, b, c, d, e, f] =
        ((((((digitValue a).getD 0 * 16 + (digitValue b).getD 0) * 16 + (digitValue c).getD 0) * 16
          + (digitValue d).getD 0) * 16 + (digitValue e).getD 0) * 16 + (digitValue f).getD 0) := by
  obtain ⟨ha1, ha2, ha3, -, ha5, ha6, ha7, -, -⟩ := isxdigit_digit a ha
  obtain ⟨hb1, hb2, hb3, -, -, -, -, hb8, hb9⟩ := isxdigit_digit b hb
  obtain ⟨hc1, hc2, hc3, -⟩ := isxdigit_digit c hc
  obtain ⟨hd1, hd2, hd3, -⟩ := isxdigit_digit d hd
  obtain ⟨he1, he2, he3, -⟩ := isxdigit_digit e he
  obtain ⟨hf1, hf2, hf3, -⟩ := isxdigit_digit f hf
  have hv : hexValue [a, b, c, d, e, f] =
        ((((((digitValue a).getD 0 * 16 + (digitValue b).getD 0) * 16 + (digitValue c).getD 0) * 16
          + (digitValue d).getD 0) * 16 + (digitValue e).getD 0) * 16 + (digitValue f).getD 0) := by
    simp only [hexValue, List.foldl]
    ring
  refine ⟨?_, hv⟩
  have hdig : strtolDigits 16 [a, b, c, d, e, f] 0 = hexValue [a, b, c, d, e, f] := by
    rw [hv]
    simp only [strtolDigits, ha3, hb3, hc3, hd3, he3, hf3, Nat.zero_mul, Nat.zero_add]
  have hpre : hasHexPrefix [a, b, c, d, e, f] = false := by
    simp [hasHexPrefix, hb8, hb9]
  have hbound : ((hexValue [a, b, c, d, e, f] : Nat) : Int) < 2 ^ 24 := by
    rw [hv]
    omega
  have hsign : strtolSign ([a, b, c, d, e, f].dropWhile isspace) = (false, [a, b, c, d, e, f]) := by
    simp [List.dropWhile, ha5, strtolSign, ha6, ha7]
  have hbase : strtolBase 16 [a, b, c, d, e, f] = (16, [a, b, c, d, e, f]) := by
    simp [strtolBase, hpre]
  have hconv : strtolConvert false 16 [a, b, c, d, e, f] errno =
      (((hexValue [a, b, c, d, e, f] : Nat) : Int), errno) := by
    have h1 : ¬ ((hexValue [a, b, c, d, e, f] : Nat) : Int) > LONG_MAX := by
      simp only [LONG_MAX]; omega
    have h2 : ¬ ((hexValue [a, b, c, d, e, f] : Nat) : Int) < LONG_MIN := by
      simp only [LONG_MIN]; omega
    simp only [strtolConvert, List.head?, Option.bind, ha3, Option.isSome, hdig, if_true,
      Bool.false_eq_true, if_false, h1, h2]
  simp only [strtol, hsign, hbase, hconv]

/-- A list of length six is its six elements. -/
theorem length_six {α : Type} (t : List α) (h : t.length = 6) :
    ∃ a b c d e f, t = [a, b, c, d, e, f] := by
  match t, h with
  | [a, b, c, d, e, f], _ => exact ⟨a, b, c, d, e, f, rfl⟩

/-- The check loop of `parseColor` on a six-byte string tests each of its bytes. -/
theorem xdigit_loop (a b c d e f : Nat) :
    (List.range 6).all (fun i => isxdigit (charAt [a, b, c, d, e, f] i)) =
      (isxdigit a && isxdigit b && isxdigit c && isxdigit d && isxdigit e && isxdigit f) := by
  simp [range_six, charAt, Bool.and_assoc]

/-- The value `parseColor` stores for six hexadecimal digits. -/
theorem parseColor_hex6 (a b c d e f : Nat) (pResult : Color) (errno : Int)
    (ha : isxdigit a = true) (hb : isxdigit b = true) (hc : isxdigit c = true)
    (hd : isxdigit d = true) (he : isxdigit e = true) (hf : isxdigit f = true)
    (herr : errno ≠ ERANGE) :
    parseColor [a, b, c, d, e, f] pResult errno =
      ⟨0, { nRed := (digitValue a).getD 0 * 16 + (digitValue b).getD 0,
            nGreen := (digitValue c).getD 0 * 16 + (digitValue d).getD 0,
            nBlue := (digitValue e).getD 0 * 16 + (digitValue f).getD 0 }, errno⟩ := by
  obtain ⟨hs, hv⟩ := strtol_hex6 a b c d e f errno ha hb hc hd he hf
  obtain ⟨ha1, -⟩ := isxdigit_digit a ha
  obtain ⟨hb1, -⟩ := isxdigit_digit b hb
  obtain ⟨hc1, -⟩ := isxdigit_digit c hc
  obtain ⟨hd1, -⟩ := isxdigit_digit d hd
  obtain ⟨he1, -⟩ := isxdigit_digit e he
  obtain ⟨hf1, -⟩ := isxdigit_digit f hf
  have hmod : (((hexValue [a, b, c, d, e, f] : Nat) : Int) % 2 ^ 32).toNat =
      hexValue [a, b, c, d, e, f] := by
    rw [hv]; omega
  have hff : (0xff : Nat) = 2 ^ 8 - 1 := by norm_num
  simp only [parseColor, strlen, List.length, xdigit_loop, ha, hb, hc, hd, he, hf, hs, hmod, herr,
    Bool.and_self, Bool.not_true, Bool.false_eq_true, if_false, ne_eq, not_true_eq_false,
    Nat.reduceAdd, hff, Nat.and_pow_two_sub_one_eq_mod, Nat.shiftRight_eq_div_pow]
  rw [hv]
  congr 2
  · omega
  · omega
  · omega

/-- A token that does not match `[0-9a-fA-F]{6}` is rejected with the result left alone. -/
theorem parseColor_reject (t : CString) (pResult : Color) (errno : Int) (h : ¬ matchesHex6 t) :
    parseColor t pResult errno = ⟨-1, pResult, errno⟩ := by
  by_cases hlen : t.length = 6
  · obtain ⟨a, b, c, d, e, f, rfl⟩ := length_six t hlen
    have hall : (isxdigit a && isxdigit b && isxdigit c && isxdigit d && isxdigit e &&
        isxdigit f) = false := by
      by_contra hne
      apply h
      refine ⟨rfl, ?_⟩
      simp only [Bool.not_eq_false, Bool.and_eq_true] at hne
      obtain ⟨⟨⟨⟨⟨ha, hb⟩, hc⟩, hd⟩, he⟩, hf⟩ := hne
      intro x hx
      simp only [List.mem_cons, List.mem_singleton, List.not_mem_nil, or_false] at hx
      rcases hx with rfl | rfl | rfl | rfl | rfl | rfl <;> rw [isHexChar_iff] <;> assumption
    simp only [parseColor, strlen, List.length, Nat.reduceAdd, ne_eq, not_true_eq_false, if_false,
      xdigit_loop, hall, Bool.not_false, if_true]
  · simp only [parseColor, strlen, ne_eq, hlen, not_false_eq_true, if_true]

/-- A token that matches `[0-9a-fA-F]{6}` is six hexadecimal digit characters. -/
theorem matchesHex6_digits (t : CString) (ht : matchesHex6 t) :
    ∃ a b c d e f, t = [a, b, c, d, e, f] ∧ isxdigit a = true ∧ isxdigit b = true ∧
      isxdigit c = true ∧ isxdigit d = true ∧ isxdigit e = true ∧ isxdigit f = true := by
  obtain ⟨hlen, hhex⟩ := ht
  obtain ⟨a, b, c, d, e, f, rfl⟩ := length_six t hlen
  exact ⟨a, b, c, d, e, f, rfl, (isHexChar_iff a).1 (hhex a (by simp)),
    (isHexChar_iff b).1 (hhex b (by simp)), (isHexChar_iff c).1 (hhex c (by simp)),
    (isHexChar_iff d).1 (hhex d (by simp)), (isHexChar_iff e).1 (hhex e (by simp)),
    (isHexChar_iff f).1 (hhex f (by simp))⟩

/-- A token that matches `[0-9a-fA-F]{6}` is accepted and `errno` is left as it was. -/
theorem parseColor_accept (t : CString) (pResult : Color) (errno : Int)
    (ht : matchesHex6 t) (herr : errno ≠ ERANGE) :
    (parseColor t pResult errno).nRetval = 0 ∧ (parseColor t pResult errno).errno = errno := by
  obtain ⟨a, b, c, d, e, f, rfl, ha, hb, hc, hd, he, hf⟩ := matchesHex6_digits t ht
  rw [parseColor_hex6 a b c d e f pResult errno ha hb hc hd he hf herr]
  exact ⟨rfl, rfl⟩

/-! ## Parsing: what `strtol` converts to 1, 2 or 3 -/

theorem digitIn_eq_zero_iff (base c : Nat) (hb : 4 ≤ base) :
    digitIn base c = some 0 ↔ c = 48 := by
  unfold digitIn digitValue
  constructor
  · intro h
    split_ifs at h <;> simp at h
    all_goals omega
  · rintro rfl
    simp
    omega

theorem digitIn_eq_small_iff (base c v : Nat) (hb : 4 ≤ base) (h1 : 1 ≤ v) (h3 : v ≤ 3) :
    digitIn base c = some v ↔ c = 48 + v := by
  unfold digitIn digitValue
  constructor
  · intro h
    split_ifs at h <;> simp at h <;> omega
  · rintro rfl
    have e1 : 48 + v ≤ 57 := by omega
    have e2 : v < base := by omega
    simp [e1, e2]

theorem strtolDigits_head_none (base : Nat) (s : CString) (acc : Nat)
    (h : s.head?.bind (digitIn base) = none) : strtolDigits base s acc = acc := by
  cases s with
  | nil => rfl
  | cons c cs =>
    simp only [List.head?, Option.bind] at h
    simp only [strtolDigits, h]

theorem strtolDigits_ge (base : Nat) (hb : 1 ≤ base) :
    ∀ (s : CString) (acc : Nat), acc ≤ strtolDigits base s acc := by
  intro s
  induction s with
  | nil => intro acc; exact le_refl _
  | cons c cs ih =>
    intro acc
    unfold strtolDigits
    cases hd : digitIn base c with
    | none => exact le_refl _
    | some d =>
      have := ih (acc * base + d)
      have : acc ≤ acc * base := Nat.le_mul_of_pos_right acc hb
      simp only
      omega

/-- The digit strings whose value in a base of at least 4 is 1, 2 or 3: zeros, then that
digit, then no further digit of the base. -/
theorem strtolDigits_small_iff (base v : Nat) (hb : 4 ≤ base) (h1 : 1 ≤ v) (h3 : v ≤ 3) :
    ∀ s : CString, strtolDigits base s 0 = v ↔
      ∃ zeros rest, (∀ z ∈ zeros, z = 48) ∧ s = zeros ++ (48 + v) :: rest ∧
        rest.head?.bind (digitIn base) = none := by
  intro s
  induction s with
  | nil =>
    constructor
    · intro h
      simp only [strtolDigits] at h
      omega
    · rintro ⟨zeros, rest, -, hs, -⟩
      simp at hs
  | cons c cs ih =>
    unfold strtolDigits
    cases hd : digitIn base c with
    | none =>
      simp only
      constructor
      · intro h; omega
      · rintro ⟨zeros, rest, hz, hs, -⟩
        cases zeros with
        | nil =>
          simp only [List.nil_append, List.cons.injEq] at hs
          rw [hs.1, (digitIn_eq_small_iff base (48 + v) v hb h1 h3).2 rfl] at hd
          simp at hd
        | cons z zs =>
          simp only [List.cons_append, List.cons.injEq] at hs
          rw [hs.1, hz z (by simp), (digitIn_eq_zero_iff base 48 hb).2 rfl] at hd
          simp at hd
    | some d =>
      simp only [Nat.zero_mul, Nat.zero_add]
      by_cases hd0 : d = 0
      · subst hd0
        have hc : c = 48 := (digitIn_eq_zero_iff base c hb).1 hd
        rw [ih]
        constructor
        · rintro ⟨zeros, rest, hz, hs, hr⟩
          refine ⟨48 :: zeros, rest, ?_, ?_, hr⟩
          · intro z hzmem
            rcases List.mem_cons.1 hzmem with rfl | hzm
            · rfl
            · exact hz z hzm
          · rw [hc, hs]; rfl
        · rintro ⟨zeros, rest, hz, hs, hr⟩
          cases zeros with
          | nil =>
            simp only [List.nil_append, List.cons.injEq] at hs
            omega
          | cons z zs =>
            simp only [List.cons_append, List.cons.injEq] at hs
            exact ⟨zs, rest, fun y hy => hz y (List.mem_cons_of_mem _ hy), hs.2, hr⟩
      · constructor
        · intro h
          have hnone : cs.head?.bind (digitIn base) = none := by
            cases cs with
            | nil => rfl
            | cons c2 cs2 =>
              simp only [List.head?, Option.bind]
              cases hd2 : digitIn base c2 with
              | none => rfl
              | some d2 =>
                exfalso
                simp only [strtolDigits, hd2] at h
                have hge := strtolDigits_ge base (by omega) cs2 (d * base + d2)
                have hmul : 4 * d ≤ d * base := by
                  calc 4 * d = d * 4 := Nat.mul_comm 4 d
                    _ ≤ d * base := Nat.mul_le_mul_left d hb
                omega
          rw [strtolDigits_head_none base cs d hnone] at h
          subst h
          have hc : c = 48 + d := (digitIn_eq_small_iff base c d hb h1 h3).1 hd
          exact ⟨[], cs, by simp, by rw [hc]; rfl, hnone⟩
        · rintro ⟨zeros, rest, hz, hs, hr⟩
          cases zeros with
          | nil =>
            simp only [List.nil_append, List.cons.injEq] at hs
            obtain ⟨hc, hcs⟩ := hs
            rw [hc, (digitIn_eq_small_iff base (48 + v) v hb h1 h3).2 rfl] at hd
            simp only [Option.some.injEq] at hd
            rw [hcs, strtolDigits_head_none base rest d hr]
            exact hd.symm
          | cons z zs =>
            simp only [List.cons_append, List.cons.injEq] at hs
            rw [hs.1, hz z (by simp), (digitIn_eq_zero_iff base 48 hb).2 rfl] at hd
            simp only [Option.some.injEq] at hd
            omega

theorem strtolConvert_small_iff (neg : Bool) (base : Nat) (s : CString) (errno : Int) (v : Nat)
    (h1 : 1 ≤ v) (h3 : v ≤ 3) :
    ((strtolConvert neg base s errno).1 = (v : Int) ↔ neg = false ∧ strtolDigits base s 0 = v) ∧
      ((strtolConvert neg base s errno).1 = (v : Int) → (strtolConvert neg base s errno).2 = errno) := by
  unfold strtolConvert
  by_cases hhead : (s.head?.bind (digitIn base)).isSome = true
  · simp only [hhead, if_true]
    cases neg with
    | true =>
      simp only [if_true, LONG_MAX, LONG_MIN]
      split_ifs <;> simp <;> omega
    | false =>
      simp only [Bool.false_eq_true, if_false, LONG_MAX, LONG_MIN]
      split_ifs <;> simp <;> omega
  · have hnone : s.head?.bind (digitIn base) = none := by
      simpa using hhead
    simp only [hhead, if_false, strtolDigits_head_none base s 0 hnone]
    constructor
    · constructor
      · intro h; simp at h; omega
      · rintro ⟨-, h⟩; omega
    · intro h; simp at h; omega

/-- The digit a literal's significant character stands for, in a base of at least 4. -/
theorem digitIn_significant (base v : Nat) (hb : 4 ≤ base) (h1 : 1 ≤ v) (h3 : v ≤ 3) :
    digitIn base (48 + v) = some v :=
  (digitIn_eq_small_iff base (48 + v) v hb h1 h3).2 rfl

/-- What `strtol` in base 0 converts to 1, 2 or 3 after the sign: an integer literal with that
value followed by no further digit of its base. -/
theorem strtolBase_small_iff (s : CString) (errno : Int) (v : Nat) (h1 : 1 ≤ v) (h3 : v ≤ 3) :
    (strtolConvert false (strtolBase 0 s).1 (strtolBase 0 s).2 errno).1 = (v : Int) ↔
      ∃ base lit rest, s = lit ++ rest ∧ IsSmallLiteral base lit v ∧
        rest.head?.bind (digitIn base) = none := by
  have hbase : strtolBase 0 s = if hasHexPrefix s = true then (16, s.drop 2)
      else if s.head? = some 48 then (8, s) else (10, s) := by
    unfold strtolBase
    by_cases hp : hasHexPrefix s = true
    · simp [hp]
    · simp only [hp, and_false, if_false, true_or, true_and]
      split_ifs <;> rfl
  rw [hbase]
  by_cases hp : hasHexPrefix s = true
  · rw [if_pos hp]
    rw [(strtolConvert_small_iff false 16 (s.drop 2) errno v h1 h3).1,
      strtolDigits_small_iff 16 v (by norm_num) h1 h3]
    simp only [hasHexPrefix, Bool.and_eq_true, Bool.or_eq_true, beq_iff_eq] at hp
    obtain ⟨⟨h0, hx⟩, -⟩ := hp
    match s, h0, hx with
    | z :: x :: t, h0, hx =>
      simp only [List.head?, Option.some.injEq, List.tail] at h0 hx
      subst h0
      simp only [List.drop, true_and]
      constructor
      · rintro ⟨zeros, rest, hz, ht, hr⟩
        refine ⟨16, 48 :: x :: (zeros ++ [48 + v]), rest, ?_, ⟨zeros, hz, ?_⟩, hr⟩
        · rw [ht]; simp
        · rcases hx with rfl | rfl
          · exact Or.inr (Or.inr ⟨rfl, Or.inl rfl⟩)
          · exact Or.inr (Or.inr ⟨rfl, Or.inr rfl⟩)
      · rintro ⟨base, lit, rest, hs, ⟨zeros, hz, hl⟩, hr⟩
        rcases hl with ⟨rfl, rfl⟩ | ⟨rfl, rfl⟩ | ⟨rfl, rfl | rfl⟩
        · simp only [List.cons_append, List.nil_append, List.cons.injEq] at hs
          omega
        · simp only [List.cons_append, List.cons.injEq, true_and] at hs
          cases zeros with
          | nil =>
            simp only [List.nil_append, List.cons_append, List.cons.injEq] at hs
            omega
          | cons z zs =>
            simp only [List.cons_append, List.cons.injEq] at hs
            have := hz z (by simp)
            omega
        · simp only [List.cons_append, List.cons.injEq, true_and] at hs
          exact ⟨zeros, rest, hz, by rw [hs.2]; simp, hr⟩
        · simp only [List.cons_append, List.cons.injEq, true_and] at hs
          exact ⟨zeros, rest, hz, by rw [hs.2]; simp, hr⟩
  · rw [if_neg hp]
    by_cases h48 : s.head? = some 48
    · rw [if_pos h48]
      rw [(strtolConvert_small_iff false 8 s errno v h1 h3).1,
        strtolDigits_small_iff 8 v (by norm_num) h1 h3]
      simp only [true_and]
      constructor
      · rintro ⟨zeros, rest, hz, hs, hr⟩
        cases zeros with
        | nil =>
          rw [hs] at h48
          simp only [List.nil_append, List.head?, Option.some.injEq] at h48
          omega
        | cons z zs =>
          refine ⟨8, 48 :: (zs ++ [48 + v]), rest,
            ?_, ⟨zs, fun y hy => hz y (List.mem_cons_of_mem _ hy), Or.inr (Or.inl ⟨rfl, rfl⟩)⟩, hr⟩
          rw [hs, hz z (by simp)]
          simp
      · rintro ⟨base, lit, rest, hs, ⟨zeros, hz, hl⟩, hr⟩
        rcases hl with ⟨rfl, rfl⟩ | ⟨rfl, rfl⟩ | ⟨rfl, rfl | rfl⟩
        · rw [hs] at h48
          simp only [List.cons_append, List.head?, Option.some.injEq] at h48
          omega
        · refine ⟨48 :: zeros, rest, ?_, by rw [hs]; simp, hr⟩
          intro y hy
          rcases List.mem_cons.1 hy with rfl | hy
          · rfl
          · exact hz y hy
        · exfalso
          apply hp
          rw [hs]
          have hd : ((zeros ++ [48 + v] ++ rest).head?.bind (digitIn 16)).isSome = true := by
            cases zeros with
            | nil => simp [digitIn_significant 16 v (by norm_num) h1 h3]
            | cons z zs =>
              simp [hz z (by simp), (digitIn_eq_zero_iff 16 48 (by norm_num)).2 rfl]
          simpa [hasHexPrefix] using hd
        · exfalso
          apply hp
          rw [hs]
          have hd : ((zeros ++ [48 + v] ++ rest).head?.bind (digitIn 16)).isSome = true := by
            cases zeros with
            | nil => simp [digitIn_significant 16 v (by norm_num) h1 h3]
            | cons z zs =>
              simp [hz z (by simp), (digitIn_eq_zero_iff 16 48 (by norm_num)).2 rfl]
          simpa [hasHexPrefix] using hd
    · rw [if_neg h48]
      rw [(strtolConvert_small_iff false 10 s errno v h1 h3).1,
        strtolDigits_small_iff 10 v (by norm_num) h1 h3]
      simp only [true_and]
      constructor
      · rintro ⟨zeros, rest, hz, hs, hr⟩
        cases zeros with
        | nil => exact ⟨10, [48 + v], rest, by rw [hs]; simp, ⟨[], by simp, Or.inl ⟨rfl, rfl⟩⟩, hr⟩
        | cons z zs =>
          exfalso
          apply h48
          rw [hs, hz z (by simp)]
          rfl
      · rintro ⟨base, lit, rest, hs, ⟨zeros, hz, hl⟩, hr⟩
        rcases hl with ⟨rfl, rfl⟩ | ⟨rfl, rfl⟩ | ⟨rfl, rfl | rfl⟩
        · exact ⟨[], rest, by simp, by rw [hs]; simp, hr⟩
        · exfalso; apply h48; rw [hs]; rfl
        · exfalso; apply h48; rw [hs]; rfl
        · exfalso; apply h48; rw [hs]; rfl

/-- An integer literal with value 1, 2 or 3 starts with `0` or with its significant digit. -/
theorem IsSmallLiteral_head (base : Nat) (lit : CString) (v : Nat)
    (h : IsSmallLiteral base lit v) : ∃ c t, lit = c :: t ∧ (c = 48 ∨ c = 48 + v) := by
  obtain ⟨zeros, -, hl⟩ := h
  rcases hl with ⟨-, rfl⟩ | ⟨-, rfl⟩ | ⟨-, rfl | rfl⟩
  · exact ⟨_, _, rfl, Or.inr rfl⟩
  · exact ⟨_, _, rfl, Or.inl rfl⟩
  · exact ⟨_, _, rfl, Or.inl rfl⟩
  · exact ⟨_, _, rfl, Or.inl rfl⟩

/-- The strings that `strtol` in base 0 converts to 1, 2 or 3. -/
theorem strtol_small_iff (arg : CString) (errno : Int) (v : Nat) (h1 : 1 ≤ v) (h3 : v ≤ 3) :
    (strtol arg 0 errno).1 = (v : Int) ↔ StartsWithLiteral arg v := by
  unfold strtol
  simp only
  constructor
  · intro h
    have hneg : (strtolSign (arg.dropWhile isspace)).1 = false :=
      (((strtolConvert_small_iff _ _ _ errno v h1 h3).1).1 h).1
    rw [hneg] at h
    obtain ⟨base, lit, rest, hs, hlit, hr⟩ := (strtolBase_small_iff _ errno v h1 h3).1 h
    have hws : ∀ c ∈ arg.takeWhile isspace, isspace c = true :=
      fun c hc => List.mem_takeWhile_imp hc
    have harg : arg = arg.takeWhile isspace ++ arg.dropWhile isspace :=
      (List.takeWhile_append_dropWhile isspace arg).symm
    cases hdrop : arg.dropWhile isspace with
    | nil =>
      rw [hdrop] at hs harg
      simp only [strtolSign] at hs
      exact ⟨_, [], base, lit, rest, by rw [← hs, List.nil_append]; exact harg, hws, Or.inl rfl,
        hlit, hr⟩
    | cons c t =>
      rw [hdrop] at hs hneg harg
      simp only [strtolSign] at hs hneg
      by_cases h45 : c = 45
      · simp [h45] at hneg
      · by_cases h43 : c = 43
        · subst h43
          have hs2 : t = lit ++ rest := by simpa using hs
          refine ⟨_, [43], base, lit, rest, ?_, hws, Or.inr rfl, hlit, hr⟩
          rw [← hs2]
          exact harg
        · simp only [h45, h43, if_false] at hs
          refine ⟨_, [], base, lit, rest, ?_, hws, Or.inl rfl, hlit, hr⟩
          rw [← hs, List.nil_append]
          exact harg
  · rintro ⟨ws, sign, base, lit, rest, rfl, hws, hsign, hlit, hr⟩
    obtain ⟨c, t, hct, hc⟩ := IsSmallLiteral_head base lit v hlit
    have hcs : isspace c = false ∧ c ≠ 45 ∧ c ≠ 43 := by
      rcases hc with rfl | rfl
      · decide
      · refine ⟨?_, by omega, by omega⟩
        interval_cases v <;> decide
    have hsigned : strtolSign ((ws ++ (sign ++ (lit ++ rest))).dropWhile isspace) =
        (false, lit ++ rest) := by
      rw [List.dropWhile_append_of_pos hws]
      rcases hsign with rfl | rfl
      · rw [List.nil_append, hct, List.cons_append,
          List.dropWhile_cons_of_neg (by rw [hcs.1]; decide)]
        simp only [strtolSign, hcs.2.1, hcs.2.2, if_false]
      · rw [List.singleton_append, List.dropWhile_cons_of_neg (by decide)]
        simp [strtolSign]
    rw [hsigned]
    exact (strtolBase_small_iff _ errno v h1 h3).2 ⟨base, lit, rest, rfl, hlit, hr⟩

/-- When `strtol` in base 0 returns 1, 2 or 3 it leaves `errno` as it was. -/
theorem strtol_small_errno (arg : CString) (errno : Int) (v : Nat) (h1 : 1 ≤ v) (h3 : v ≤ 3)
    (h : (strtol arg 0 errno).1 = (v : Int)) : (strtol arg 0 errno).2 = errno := by
  unfold strtol at h ⊢
  exact (strtolConvert_small_iff _ _ _ errno v h1 h3).2 h

/-- The result of `parseSpeed` on a string that starts with a literal of 1, 2 or 3. -/
theorem parseSpeed_accept (arg : CString) (pResult : Speed) (errno : Int) (v : Nat)
    (herr : errno ≠ ERANGE) (h1 : 1 ≤ v) (h3 : v ≤ 3) (h : StartsWithLiteral arg v) :
    parseSpeed arg pResult errno = ⟨0, (v : Int), errno⟩ := by
  have hv : (strtol arg 0 errno).1 = (v : Int) := (strtol_small_iff arg errno v h1 h3).2 h
  have he : (strtol arg 0 errno).2 = errno := strtol_small_errno arg errno v h1 h3 hv
  have hcond : ¬ (errno = ERANGE ∨ (v : Int) < 1 ∨ (v : Int) > 3) := by
    rintro (h | h | h)
    · exact herr h
    · omega
    · omega
  simp only [parseSpeed, hv, he, hcond, if_false]

/-- The result of `parseSpeed` on any other string. -/
theorem parseSpeed_reject (arg : CString) (pResult : Speed) (errno : Int)
    (h : ¬ ∃ v, 1 ≤ v ∧ v ≤ 3 ∧ StartsWithLiteral arg v) :
    parseSpeed arg pResult errno = ⟨-1, pResult, (strtol arg 0 errno).2⟩ := by
  have hcond : (strtol arg 0 errno).2 = ERANGE ∨ (strtol arg 0 errno).1 < 1 ∨
      (strtol arg 0 errno).1 > 3 := by
    by_contra hno
    apply h
    have hlo : 1 ≤ (strtol arg 0 errno).1 := by
      by_contra hc
      exact hno (Or.inr (Or.inl (by omega)))
    have hhi : (strtol arg 0 errno).1 ≤ 3 := by
      by_contra hc
      exact hno (Or.inr (Or.inr (by omega)))
    refine ⟨(strtol arg 0 errno).1.toNat, by omega, by omega, ?_⟩
    exact (strtol_small_iff arg errno _ (by omega) (by omega)).1 (by omega)
  simp only [parseSpeed, hcond, if_true]

/-! ## Transmission: lemmas shared by the theorems below -/

theorem sendMessages_range' (dev : HIDDevice) (m : Messages) :
    ∀ len k : Nat, k + len ≤ MAX_NUM_MESSAGES →
      sendMessages dev m (List.range' k len) =
        some (((m.messages.toList.drop k).take len).map (featureReport dev)) := by
  intro len
  induction len with
  | zero => intro k _; simp [sendMessages]
  | succ n ih =>
    intro k hk
    have hk6 : k < MAX_NUM_MESSAGES := by omega
    have hlen : k < m.messages.toList.length := by
      rw [Mathlib.Vector.toList_length]; exact hk6
    rw [List.range'_succ, sendMessages, dif_pos hk6, ih (k + 1) (by omega),
      List.drop_eq_getElem_cons hlen]
    simp only [Option.map_some', List.take_succ_cons, List.map_cons]
    rfl

theorem sendAll_eq (dev : HIDDevice) (m : Messages) (hN : m.nMessages ≤ MAX_NUM_MESSAGES) :
    sendAll dev m = some (expectedReports dev m) := by
  have h : 0 + m.nMessages.toNat ≤ MAX_NUM_MESSAGES := by
    have hN6 : m.nMessages ≤ 6 := hN
    have : m.nMessages.toNat ≤ 6 := by omega
    simpa using this
  rw [sendAll, List.range_eq_range', sendMessages_range' dev m _ 0 h]
  rfl

theorem matchProducts_eq (dev : HIDDevice) (pid : Int) (m : Messages)
    (hN : m.nMessages ≤ MAX_NUM_MESSAGES) :
    matchProducts dev pid m ASUS_PRODUCT_IDS =
      some (if pid = 0x1854 ∨ pid = 0x1869 ∨ pid = 0x1866 then expectedReports dev m else []) := by
  simp only [ASUS_PRODUCT_IDS, matchProducts, sendAll_eq dev m hN]
  by_cases h1 : pid = 0x1854
  · subst h1; simp
  · by_cases h2 : pid = 0x1869
    · subst h2; simp
    · by_cases h3 : pid = 0x1866
      · subst h3; simp
      · simp [h1, h2, h3]

theorem visitDevices_eq (m : Messages) (hN : m.nMessages ≤ MAX_NUM_MESSAGES) :
    ∀ devices : List HIDDevice,
      visitDevices m devices =
        some ((devices.filter isTargetDevice).flatMap fun d => expectedReports d m) := by
  intro devices
  induction devices with
  | nil => rfl
  | cons d rest ih =>
    rw [visitDevices, ih]
    simp only [matchProducts_eq d _ m hN]
    by_cases hv : get_int_property d.vendorID = ASUS_VENDOR_ID
    · by_cases hp : get_int_property d.productID = 0x1854 ∨
          get_int_property d.productID = 0x1869 ∨ get_int_property d.productID = 0x1866
      · have ht : isTargetDevice d = true := by
          simp only [isTargetDevice, Bool.and_eq_true, Bool.or_eq_true, beq_iff_eq]
          exact ⟨hv, by tauto⟩
        simp [hv, hp, ht, List.filter_cons]
      · have ht : isTargetDevice d = false := by
          rw [← Bool.not_eq_true]
          simp only [isTargetDevice, Bool.and_eq_true, Bool.or_eq_true, beq_iff_eq]
          tauto
        simp [hv, hp, ht, List.filter_cons]
    · have ht : isTargetDevice d = false := by
        rw [← Bool.not_eq_true]
        simp only [isTargetDevice, Bool.and_eq_true, Bool.or_eq_true, beq_iff_eq]
        tauto
      simp [hv, ht, List.filter_cons]

theorem expectedReports_device (d : HIDDevice) (m : Messages) :
    ∀ r ∈ expectedReports d m, r.device = d.ref := by
  intro r hr
  simp only [expectedReports, List.mem_append, List.mem_map, List.mem_cons, List.mem_singleton,
    List.not_mem_nil, or_false] at hr
  rcases hr with ⟨x, -, rfl⟩ | rfl | rfl <;> rfl

/-- The reports that reach the device with reference `ref`, among those written to the
selected devices of a list in which no other device has that reference. -/
theorem filter_reports_absent (m : Messages) (ref : Nat) :
    ∀ devices : List HIDDevice, ref ∉ devices.map HIDDevice.ref →
      (((devices.filter isTargetDevice).flatMap fun d => expectedReports d m).filter
        fun r => r.device = ref) = [] := by
  intro devices hnot
  rw [List.filter_eq_nil_iff]
  intro r hr
  simp only [List.mem_flatMap, List.mem_filter] at hr
  obtain ⟨d, ⟨hd, -⟩, hrd⟩ := hr
  have hdev := expectedReports_device d m r hrd
  simp only [decide_eq_true_eq]
  intro hcontra
  apply hnot
  rw [← hcontra, hdev]
  exact List.mem_map_of_mem _ hd

theorem filter_reports_present (m : Messages) :
    ∀ devices : List HIDDevice, (devices.map HIDDevice.ref).Nodup → ∀ d ∈ devices,
      (((devices.filter isTargetDevice).flatMap fun d => expectedReports d m).filter
        fun r => r.device = d.ref) = if isTargetDevice d then expectedReports d m else [] := by
  intro devices
  induction devices with
  | nil => intro _ d hd; simp at hd
  | cons x rest ih =>
    intro hnodup d hd
    rw [List.map_cons, List.nodup_cons] at hnodup
    obtain ⟨hx, hrest⟩ := hnodup
    have hsplit : ((x :: rest).filter isTargetDevice).flatMap (fun d => expectedReports d m) =
        (if isTargetDevice x then expectedReports x m else []) ++
          (rest.filter isTargetDevice).flatMap (fun d => expectedReports d m) := by
      by_cases ht : isTargetDevice x = true
      · simp [List.filter_cons, ht]
      · simp [List.filter_cons, ht]
    rw [hsplit, List.filter_append]
    rcases List.mem_cons.1 hd with rfl | hmem
    · rw [filter_reports_absent m d.ref rest hx, List.append_nil]
      by_cases ht : isTargetDevice d = true
      · simp only [ht, if_true]
        rw [List.filter_eq_self]
        intro r hr
        simp [expectedReports_device d m r hr]
      · simp [ht]
    · have hne : x.ref ≠ d.ref := by
        intro heq
        apply hx
        rw [heq]
        exact List.mem_map_of_mem _ hmem
      have hnil : ((if isTargetDevice x then expectedReports x m else []).filter
          fun r => r.device = d.ref) = [] := by
        rw [List.filter_eq_nil_iff]
        intro r hr
        by_cases ht : isTargetDevice x = true
        · simp only [ht, if_true] at hr
          simp [expectedReports_device x m r hr, hne]
        · simp [ht] at hr
      rw [hnil, List.nil_append]
      exact ih hrest d hmem

/-! ## Encoders: what each reads and what it leaves -/

/-- A vector of four is its four elements. -/
theorem vector_four {α : Type} (v : Mathlib.Vector α 4) :
    ∃ a b c d, v = ⟨[a, b, c, d], rfl⟩ := by
  obtain ⟨l, hl⟩ := v
  match l, hl with
  | [a, b, c, d], _ => exact ⟨a, b, c, d, rfl⟩

/-- The output of `multi_static` is that of its four loop bodies in turn. -/
theorem multi_static_eq (args : Arguments) (outputs : Messages) :
    multi_static args outputs = some (args,
      (List.finRange 4).foldl
        (fun out i =>
          { out with
            messages := out.messages.set (zoneSlot i)
              ⟨[0x5d, 0xb3, (i.val + 1) % 256, 0, (args.colors.get i).nRed,
                (args.colors.get i).nGreen, (args.colors.get i).nBlue, 0xeb,
                0, 0, 0, 0, 0, 0, 0, 0, 0], rfl⟩ })
        { outputs with nMessages := 4 }) :=
  rfl

/-- The messages of `multi_static` depend on the four colors only. -/
theorem multi_static_colors (a b : Arguments) (outputs : Messages)
    (h : a.colors = b.colors) :
    (multi_static a outputs).map Prod.snd = (multi_static b outputs).map Prod.snd := by
  rw [multi_static_eq, multi_static_eq, h]
  rfl

/-- The colors `rainbow` passes on. -/
theorem rainbow_colors (args : Arguments) :
    (memcpyColor (memcpyColor (memcpyColor (memcpyColor args 0 RED) 1 YELLOW) 2 CYAN)
      3 MAGENTA).colors = rainbowColors := by
  obtain ⟨colors, speed⟩ := args
  obtain ⟨a, b, c, d, rfl⟩ := vector_four colors
  rfl

/-- The messages of `single_static` depend on `colors[0]` only. -/
theorem single_static_color (a b : Arguments) (outputs : Messages)
    (h : a.colors.get 0 = b.colors.get 0) :
    (single_static a outputs).map Prod.snd = (single_static b outputs).map Prod.snd := by
  rw [single_static_eq, single_static_eq, h]
  rfl

theorem memcpyColor_get (args : Arguments) (k : Fin MAX_NUM_COLORS) (src : List Nat) :
    (memcpyColor args k src).colors.get k = ⟨src.getD 0 0, src.getD 1 0, src.getD 2 0⟩ := by
  simp only [memcpyColor, Mathlib.Vector.get_set_same]

theorem holds_one (M : Mathlib.Vector Message MAX_NUM_MESSAGES) (m : Message)
    (h0 : m.get 0 = 0x5d) (h1 : m.get 1 = 0xb3) :
    HoldsModeMessages 1 { nMessages := 1, messages := M.set 0 m } := by
  refine ⟨rfl, ?_⟩
  intro i hi
  have hi0 : i = 0 := by
    apply Fin.ext
    have : (i.val : Int) < 1 := hi
    simp only [Fin.val_zero]
    omega
  subst hi0
  dsimp only
  rw [Mathlib.Vector.get_set_same]
  exact ⟨Mathlib.Vector.toList_length m, h0, h1⟩

theorem holds_four (M : Mathlib.Vector Message MAX_NUM_MESSAGES) (f : Fin 4 → Message)
    (h0 : ∀ i, (f i).get 0 = 0x5d) (h1 : ∀ i, (f i).get 1 = 0xb3) :
    HoldsModeMessages 4
      ((List.finRange 4).foldl
        (fun out i => { out with messages := out.messages.set (zoneSlot i) (f i) })
        { nMessages := 4, messages := M }) := by
  rw [finRange_four]
  simp only [List.foldl]
  refine ⟨rfl, ?_⟩
  intro i hi
  have hi4 : i.val < 4 := by
    have : (i.val : Int) < 4 := hi
    omega
  have hcases : i = zoneSlot 0 ∨ i = zoneSlot 1 ∨ i = zoneSlot 2 ∨ i = zoneSlot 3 := by
    obtain ⟨v, hv⟩ := i
    simp only [zoneSlot, Fin.ext_iff, Fin.coe_castLE]
    simp only at hi4
    interval_cases v <;> decide
  rcases hcases with rfl | rfl | rfl | rfl <;>
    simp +decide only [Mathlib.Vector.get_set_eq_if, zoneSlot, if_true, if_false] <;>
    exact ⟨Mathlib.Vector.toList_length _, h0 _, h1 _⟩

theorem shape_single_static (args : Arguments) (outputs : Messages) :
    ∃ out, single_static args outputs = some (args, out) ∧ HoldsModeMessages 1 out :=
  ⟨_, single_static_eq args outputs, holds_one _ _ rfl rfl⟩

theorem shape_single_breathing (args : Arguments) (outputs : Messages)
    (hlo : Slow ≤ args.speed) (hhi : args.speed ≤ Fast) :
    ∃ out, single_breathing args outputs = some (args, out) ∧ HoldsModeMessages 1 out := by
  obtain ⟨sb, hsb, -⟩ := speedByteValue_legal args.speed hlo hhi
  exact ⟨_, single_breathing_eq args outputs sb hsb, holds_one _ _ rfl rfl⟩

theorem shape_single_colorcycle (args : Arguments) (outputs : Messages)
    (hlo : Slow ≤ args.speed) (hhi : args.speed ≤ Fast) :
    ∃ out, single_colorcycle args outputs = some (args, out) ∧ HoldsModeMessages 1 out := by
  obtain ⟨sb, hsb, -⟩ := speedByteValue_legal args.speed hlo hhi
  exact ⟨_, single_colorcycle_eq args outputs sb hsb, holds_one _ _ rfl rfl⟩

theorem shape_multi_static (args : Arguments) (outputs : Messages) :
    ∃ out, multi_static args outputs = some (args, out) ∧ HoldsModeMessages 4 out :=
  ⟨_, multi_static_eq args outputs, holds_four _ _ (fun _ => rfl) (fun _ => rfl)⟩

theorem shape_multi_breathing (args : Arguments) (outputs : Messages)
    (hlo : Slow ≤ args.speed) (hhi : args.speed ≤ Fast) :
    ∃ out, multi_breathing args outputs = some (args, out) ∧ HoldsModeMessages 4 out := by
  obtain ⟨sb, hsb, -⟩ := speedByteValue_legal args.speed hlo hhi
  exact ⟨_, multi_breathing_eq args outputs sb hsb,
    holds_four _ _ (fun _ => rfl) (fun _ => rfl)⟩

/-- Every registered encoder, given a speed in Slow..Fast when its record declares one,
returns and leaves as many messages as its command is listed with, each starting `5d b3`. -/
theorem shape_registered (record : FunctionRecord) (hr : record ∈ FUNCTION_RECORDS)
    (args : Arguments) (outputs : Messages)
    (hspeed : record.nSpeed = 1 → Slow ≤ args.speed ∧ args.speed ≤ Fast) :
    ∃ args2 out, record.function args outputs = some (args2, out) ∧
      HoldsModeMessages (messageCount record.szName) out := by
  simp only [FUNCTION_RECORDS, List.mem_cons, List.mem_singleton, List.not_mem_nil,
    or_false] at hr
  have h1 : ∀ name : CString, (name = cstr "multi_static" ∨ name = cstr "multi_breathing" ∨
      name = cstr "rainbow") → messageCount name = 4 := by
    intro name h
    simp only [messageCount, h, if_true]
  rcases hr with rfl | rfl | rfl | rfl | rfl | rfl | rfl | rfl | rfl | rfl | rfl | rfl | rfl | rfl
  · obtain ⟨out, h, hs⟩ := shape_single_static args outputs
    exact ⟨_, out, h, hs⟩
  · obtain ⟨out, h, hs⟩ := shape_single_breathing args outputs (hspeed rfl).1 (hspeed rfl).2
    exact ⟨_, out, h, hs⟩
  · obtain ⟨out, h, hs⟩ := shape_single_colorcycle args outputs (hspeed rfl).1 (hspeed rfl).2
    exact ⟨_, out, h, hs⟩
  · obtain ⟨out, h, hs⟩ := shape_multi_static args outputs
    exact ⟨_, out, h, by rw [h1 _ (Or.inl rfl)]; exact hs⟩
  · obtain ⟨out, h, hs⟩ := shape_multi_breathing args outputs (hspeed rfl).1 (hspeed rfl).2
    exact ⟨_, out, h, by rw [h1 _ (Or.inr (Or.inl rfl))]; exact hs⟩
  · obtain ⟨out, h, hs⟩ := shape_single_static (memcpyColor args 0 RED) outputs
    exact ⟨_, out, h, hs⟩
  · obtain ⟨out, h, hs⟩ := shape_single_static (memcpyColor args 0 GREEN) outputs
    exact ⟨_, out, h, hs⟩
  · obtain ⟨out, h, hs⟩ := shape_single_static (memcpyColor args 0 BLUE) outputs
    exact ⟨_, out, h, hs⟩
  · obtain ⟨out, h, hs⟩ := shape_single_static (memcpyColor args 0 YELLOW) outputs
    exact ⟨_, out, h, hs⟩
  · obtain ⟨out, h, hs⟩ := shape_single_static (memcpyColor args 0 CYAN) outputs
    exact ⟨_, out, h, hs⟩
  · obtain ⟨out, h, hs⟩ := shape_single_static (memcpyColor args 0 MAGENTA) outputs
    exact ⟨_, out, h, hs⟩
  · obtain ⟨out, h, hs⟩ := shape_single_static (memcpyColor args 0 WHITE) outputs
    exact ⟨_, out, h, hs⟩
  · obtain ⟨out, h, hs⟩ := shape_single_static (memcpyColor args 0 BLACK) outputs
    exact ⟨_, out, h, hs⟩
  · obtain ⟨out, h, hs⟩ := shape_multi_static
      (memcpyColor (memcpyColor (memcpyColor (memcpyColor args 0 RED) 1 YELLOW) 2 CYAN)
        3 MAGENTA) outputs
    exact ⟨_, out, h, by rw [h1 _ (Or.inr (Or.inr rfl))]; exact hs⟩

theorem single_breathing_none (args : Arguments) (outputs : Messages)
    (h : speedByteValue args.speed = none) : single_breathing args outputs = none := by
  simp only [single_breathing, h, Option.bind_eq_bind, Option.none_bind]

theorem single_colorcycle_none (args : Arguments) (outputs : Messages)
    (h : speedByteValue args.speed = none) : single_colorcycle args outputs = none := by
  simp only [single_colorcycle, h, Option.bind_eq_bind, Option.none_bind]

theorem multi_breathing_none (args : Arguments) (outputs : Messages)
    (h : speedByteValue args.speed = none) : multi_breathing args outputs = none := by
  simp only [multi_breathing, finRange_four, List.foldlM, multi_breathing_body, h,
    Option.bind_eq_bind, Option.none_bind]

/-- The messages of `single_breathing` depend on `colors[0]`, `colors[1]` and `speed` only. -/
theorem single_breathing_reads (a b : Arguments) (outputs : Messages)
    (h0 : a.colors.get 0 = b.colors.get 0) (h1 : a.colors.get 1 = b.colors.get 1)
    (hs : a.speed = b.speed) :
    (single_breathing a outputs).map Prod.snd = (single_breathing b outputs).map Prod.snd := by
  cases hsb : speedByteValue a.speed with
  | none =>
    rw [single_breathing_none a outputs hsb, single_breathing_none b outputs (hs ▸ hsb)]
  | some sb =>
    rw [single_breathing_eq a outputs sb hsb, single_breathing_eq b outputs sb (hs ▸ hsb),
      h0, h1]
    rfl

/-- The messages of `single_colorcycle` depend on `speed` only. -/
theorem single_colorcycle_reads (a b : Arguments) (outputs : Messages)
    (hs : a.speed = b.speed) :
    (single_colorcycle a outputs).map Prod.snd =
      (single_colorcycle b outputs).map Prod.snd := by
  cases hsb : speedByteValue a.speed with
  | none =>
    rw [single_colorcycle_none a outputs hsb, single_colorcycle_none b outputs (hs ▸ hsb)]
  | some sb =>
    rw [single_colorcycle_eq a outputs sb hsb, single_colorcycle_eq b outputs sb (hs ▸ hsb)]
    rfl

/-- The messages of `multi_breathing` depend on the four colors and `speed` only. -/
theorem multi_breathing_reads (a b : Arguments) (outputs : Messages)
    (hc : a.colors = b.colors) (hs : a.speed = b.speed) :
    (multi_breathing a outputs).map Prod.snd = (multi_breathing b outputs).map Prod.snd := by
  cases hsb : speedByteValue a.speed with
  | none =>
    rw [multi_breathing_none a outputs hsb, multi_breathing_none b outputs (hs ▸ hsb)]
  | some sb =>
    rw [multi_breathing_eq a outputs sb hsb, multi_breathing_eq b outputs sb (hs ▸ hsb), hc]
    rfl

/-! ## Transmission: reports on any host -/

/-- The reports of `handleUsb` on any host, for an `nMessages` within the array. -/
theorem handleUsb_eq (host : HIDHost) (m : Messages) (hN : m.nMessages ≤ MAX_NUM_MESSAGES) :
    handleUsb host m = some (0,
      ((enumeratedDevices host).filter isTargetDevice).flatMap fun d => expectedReports d m) := by
  unfold handleUsb enumeratedDevices
  by_cases hc : host.managerCreated = true
  · by_cases ho : host.openReturn = kIOReturnError
    · simp [hc, ho]
    · cases hd : host.devices with
      | none => simp [hc, ho]
      | some devices => simp [hc, ho, visitDevices_eq m hN devices]
  · simp [hc]

/-- Every report for a device is a mode message below `nMessages` or one of the trailers. -/
theorem expectedReports_mem (d : HIDDevice) (m : Messages) (w : Report)
    (hw : w ∈ expectedReports d m) :
    (∃ i : Fin MAX_NUM_MESSAGES, (i.val : Int) < m.nMessages ∧
        w = featureReport d (m.messages.get i)) ∨
      w = featureReport d MESSAGE_SET ∨ w = featureReport d MESSAGE_APPLY := by
  simp only [expectedReports, List.mem_append, List.mem_map, List.mem_cons, List.mem_singleton,
    List.not_mem_nil, or_false] at hw
  rcases hw with ⟨x, hx, rfl⟩ | rfl | rfl
  · left
    rw [List.mem_take_iff_getElem] at hx
    obtain ⟨i, hi, rfl⟩ := hx
    have hlen : m.messages.toList.length = MAX_NUM_MESSAGES := Mathlib.Vector.toList_length _
    have hi6 : i < MAX_NUM_MESSAGES := by omega
    refine ⟨⟨i, hi6⟩, ?_, ?_⟩
    · simp only
      omega
    · rw [Mathlib.Vector.get_eq_get]
      rfl
  · right; left; rfl
  · right; right; rfl

/-- The reports written for messages that each start `5d b3` all have report id `5d` and
length 17. -/
theorem handleUsb_report_ids (host : HIDHost) (m : Messages) (n : Int) (hn : n ≤ 4)
    (hm : HoldsModeMessages n m) (ret : Int) (written : List Report)
    (h : handleUsb host m = some (ret, written)) :
    ∀ w ∈ written, w.reportID = 0x5d ∧ w.reportLength = 17 := by
  have hN : m.nMessages ≤ MAX_NUM_MESSAGES := by
    rw [hm.1]
    simp only [MAX_NUM_MESSAGES]
    omega
  rw [handleUsb_eq host m hN] at h
  simp only [Option.some.injEq, Prod.mk.injEq] at h
  obtain ⟨-, rfl⟩ := h
  intro w hw
  simp only [List.mem_flatMap, List.mem_filter] at hw
  obtain ⟨d, -, hwd⟩ := hw
  rcases expectedReports_mem d m w hwd with ⟨i, hi, rfl⟩ | rfl | rfl
  · rw [hm.1] at hi
    exact ⟨(hm.2 i hi).2.1, rfl⟩
  · exact ⟨rfl, rfl⟩
  · exact ⟨rfl, rfl⟩

/-- Devices of other vendors get no report, whatever `nMessages` is. -/
theorem visitDevices_other_vendors (m : Messages) :
    ∀ devices : List HIDDevice,
      (∀ d ∈ devices, get_int_property d.vendorID ≠ ASUS_VENDOR_ID) →
        visitDevices m devices = some [] := by
  intro devices
  induction devices with
  | nil => intro _; rfl
  | cons d rest ih =>
    intro h
    rw [visitDevices, ih (fun x hx => h x (List.mem_cons_of_mem _ hx))]
    simp [h d (List.mem_cons_self _ _)]

/-- What `get_int_property` returns is a nonzero `value` only for a property that is present
and holds `value`: an absent property reads as 0. -/
theorem get_int_property_eq_iff (prop : Option Int) (value : Int) (hvalue : value ≠ 0) :
    get_int_property prop = value ↔ prop = some value := by
  cases prop with
  | none =>
    simp only [get_int_property, reduceCtorEq, iff_false]
    exact fun h => hvalue h.symm
  | some stored => simp only [get_int_property, Option.some.injEq]

/-- The selector on the properties the device carries: the comparisons of `handleUsb` single
out the devices whose vendor id property is 0x0b05 and whose product id property is one of the
three listed. -/
theorem isTargetDevice_iff (d : HIDDevice) :
    isTargetDevice d = true ↔
      (d.vendorID = some 0x0b05 ∧
        (d.productID = some 0x1854 ∨ d.productID = some 0x1869 ∨ d.productID = some 0x1866)) := by
  simp only [isTargetDevice, Bool.and_eq_true, Bool.or_eq_true, beq_iff_eq, or_assoc,
    get_int_property_eq_iff d.vendorID 0x0b05 (by decide),
    get_int_property_eq_iff d.productID 0x1854 (by decide),
    get_int_property_eq_iff d.productID 0x1869 (by decide),
    get_int_property_eq_iff d.productID 0x1866 (by decide)]

/-! ## Registry lookup and option scanning -/

/-- When the second string is shorter than `n`, `strncmp` returns 0 exactly on equal
strings. -/
theorem strncmp_eq_zero_iff :
    ∀ (n : Nat) (s t : CString), t.length < n → IsCString s → IsCString t →
      (strncmp s t n = 0 ↔ s = t) := by
  intro n
  induction n with
  | zero => intro s t h; omega
  | succ n ih =>
    intro s t hlen hs ht
    cases s with
    | nil =>
      cases t with
      | nil => simp [strncmp]
      | cons b t =>
        have hb : b ≠ 0 := ht b (by simp)
        simp only [strncmp, List.nil_eq, reduceCtorEq, iff_false]
        omega
    | cons a s =>
      cases t with
      | nil =>
        have ha : a ≠ 0 := hs a (by simp)
        simp only [strncmp, reduceCtorEq, iff_false]
        omega
      | cons b t =>
        simp only [strncmp, List.cons.injEq]
        by_cases hab : a = b
        · simp only [hab, if_true, true_and]
          apply ih
          · simp only [List.length_cons] at hlen; omega
          · exact fun c hc => hs c (List.mem_cons_of_mem _ hc)
          · exact fun c hc => ht c (List.mem_cons_of_mem _ hc)
        · simp only [hab, if_false, false_and, iff_false]
          omega

theorem findFunction_some (name : CString) :
    ∀ (records : List FunctionRecord) (record : FunctionRecord),
      findFunction name records = some record →
        record ∈ records ∧ strncmp name record.szName MAX_FUNCNAME_LEN = 0 := by
  intro records
  induction records with
  | nil => intro record h; simp [findFunction] at h
  | cons r rest ih =>
    intro record h
    unfold findFunction at h
    split_ifs at h with hcmp
    · simp only [Option.some.injEq] at h
      subst h
      exact ⟨List.mem_cons_self _ _, hcmp⟩
    · obtain ⟨hm, hc⟩ := ih record h
      exact ⟨List.mem_cons_of_mem _ hm, hc⟩

theorem findFunction_none (name : CString) :
    ∀ records : List FunctionRecord, findFunction name records = none →
      ∀ record ∈ records, strncmp name record.szName MAX_FUNCNAME_LEN ≠ 0 := by
  intro records
  induction records with
  | nil => intro _ record hr; simp at hr
  | cons r rest ih =>
    intro h record hr
    unfold findFunction at h
    split_ifs at h with hcmp
    rcases List.mem_cons.1 hr with rfl | hm
    · exact hcmp
    · exact ih h record hm

/-- The registered names are C strings shorter than `MAX_FUNCNAME_LEN` that do not start with
`-`, and each is found as its own record. -/
theorem registered_name (record : FunctionRecord) (hr : record ∈ FUNCTION_RECORDS) :
    record.szName.length < MAX_FUNCNAME_LEN ∧ IsCString record.szName ∧
      record.szName.head? ≠ some 45 ∧ record.szName ∈ registeredNames ∧
      findFunction record.szName FUNCTION_RECORDS = some record := by
  simp only [FUNCTION_RECORDS, List.mem_cons, List.mem_singleton, List.not_mem_nil,
    or_false] at hr
  rcases hr with rfl | rfl | rfl | rfl | rfl | rfl | rfl | rfl | rfl | rfl | rfl | rfl | rfl | rfl <;>
    exact ⟨by decide, by decide, by decide, by decide, rfl⟩

theorem registeredNames_eq : FUNCTION_RECORDS.map FunctionRecord.szName = registeredNames := rfl

/-- Option scanning stops at an argument that does not start with `-`. -/
theorem scanOptions_stop (s : CString) (rest : List CString) (optind : Nat) (verbose : Int)
    (h : s.head? ≠ some 45) : scanOptions (s :: rest) optind verbose = (verbose, some optind) := by
  unfold scanOptions
  split
  · rename_i c letters
    simp at h
  · rfl

/-- Option scanning over arguments `-v`: `verbose` is set and `optind` passes them. -/
theorem scanOptions_v (tail : List CString) :
    ∀ (options : List CString) (optind : Nat) (verbose : Int),
      (∀ o ∈ options, o = cstr "-v") →
      scanOptions (options ++ tail) optind verbose =
        if options = [] then scanOptions tail optind verbose
        else scanOptions tail (optind + options.length) 1 := by
  intro options
  induction options with
  | nil => intro optind verbose _; simp
  | cons o os ih =>
    intro optind verbose h
    have ho : o = [45, 118] := by rw [h o (by simp)]; decide
    subst ho
    have hos : ∀ x ∈ os, x = cstr "-v" := fun x hx => h x (List.mem_cons_of_mem _ hx)
    have hstep : scanOptions (([45, 118] :: os) ++ tail) optind verbose =
        scanOptions (os ++ tail) (optind + 1) 1 := by
      simp [scanOptions, scanLetters]
    rw [hstep, ih (optind + 1) 1 hos]
    by_cases hnil : os = []
    · subst hnil; simp
    · simp only [hnil, if_false, reduceCtorEq, List.length_cons]
      congr 1
      omega

/-- The registry lookup finds a record exactly for its own name. -/
theorem findFunction_eq_some_iff (s : CString) (hs : IsCString s) (record : FunctionRecord) :
    findFunction s FUNCTION_RECORDS = some record ↔
      record ∈ FUNCTION_RECORDS ∧ record.szName = s := by
  constructor
  · intro h
    obtain ⟨hm, hc⟩ := findFunction_some s FUNCTION_RECORDS record h
    obtain ⟨hlen, hcs, -⟩ := registered_name record hm
    exact ⟨hm, ((strncmp_eq_zero_iff _ s record.szName hlen hs hcs).1 hc).symm⟩
  · rintro ⟨hm, rfl⟩
    exact (registered_name record hm).2.2.2.2

/-- A string that is not a registered name is found nowhere in the registry. -/
theorem findFunction_unknown (s : CString) (hs : IsCString s) (h : s ∉ registeredNames) :
    findFunction s FUNCTION_RECORDS = none := by
  cases hf : findFunction s FUNCTION_RECORDS with
  | none => rfl
  | some record =>
    exfalso
    obtain ⟨hm, rfl⟩ := (findFunction_eq_some_iff s hs record).1 hf
    exact h (registered_name record hm).2.2.2.1

/-- The outcome of `parseArguments` when the first argument is not an option and is not
found in the registry. -/
theorem parseArguments_unknown (prog s : CString) (rest : List CString) (messages : Messages)
    (args : Arguments) (errno verbose : Int) (hdash : s.head? ≠ some 45)
    (h : findFunction s FUNCTION_RECORDS = none) :
    parseArguments (prog :: s :: rest) messages args errno verbose =
      some ⟨-1, messages, [], errno, verbose⟩ := by
  unfold parseArguments
  simp only [List.drop_succ_cons, List.drop_zero, scanOptions_stop s rest 1 verbose hdash,
    List.getD_cons_succ, List.getD_cons_zero, h]
  split_ifs <;> rfl

/-! ## The value loop of `parseArguments` -/

/-- The color `parseColor` stores for a valid token is the color the token stands for. -/
theorem parseColor_valid (t : CString) (pResult : Color) (errno : Int)
    (ht : matchesHex6 t) (herr : errno ≠ ERANGE) :
    parseColor t pResult errno = ⟨0, colorOfToken t, errno⟩ := by
  obtain ⟨a, b, c, d, e, f, rfl, ha, hb, hc, hd, he, hf⟩ := matchesHex6_digits t ht
  rw [parseColor_hex6 a b c d e f pResult errno ha hb hc hd he hf herr]
  obtain ⟨-, hv⟩ := strtol_hex6 a b c d e f errno ha hb hc hd he hf
  obtain ⟨ha1, -⟩ := isxdigit_digit a ha
  obtain ⟨hb1, -⟩ := isxdigit_digit b hb
  obtain ⟨hc1, -⟩ := isxdigit_digit c hc
  obtain ⟨hd1, -⟩ := isxdigit_digit d hd
  obtain ⟨he1, -⟩ := isxdigit_digit e he
  obtain ⟨hf1, -⟩ := isxdigit_digit f hf
  simp only [colorOfToken, hv]
  congr 2
  · omega
  · omega
  · omega

/-- With `errno` left at `ERANGE`, `parseColor` rejects every token. -/
theorem parseColor_stale (t : CString) (pResult : Color) :
    parseColor t pResult ERANGE = ⟨-1, pResult, ERANGE⟩ := by
  by_cases ht : matchesHex6 t
  · obtain ⟨a, b, c, d, e, f, rfl, ha, hb, hc, hd, he, hf⟩ := matchesHex6_digits t ht
    obtain ⟨hs, -⟩ := strtol_hex6 a b c d e f ERANGE ha hb hc hd he hf
    simp only [parseColor, strlen, List.length, xdigit_loop, ha, hb, hc, hd, he, hf, hs,
      Bool.and_self, Bool.not_true, Bool.false_eq_true, if_false, ne_eq, not_true_eq_false,
      Nat.reduceAdd, if_true]
  · exact parseColor_reject t pResult ERANGE ht

/-- When `parseColor` does not fail, the token is valid, `errno` was not `ERANGE`, and the
color stored is the color the token stands for. -/
theorem parseColor_ok (t : CString) (pResult : Color) (errno : Int)
    (h : ¬ (parseColor t pResult errno).nRetval < 0) :
    matchesHex6 t ∧ errno ≠ ERANGE ∧ parseColor t pResult errno = ⟨0, colorOfToken t, errno⟩ := by
  have ht : matchesHex6 t := by
    by_contra hno
    rw [parseColor_reject t pResult errno hno] at h
    simp at h
  have herr : errno ≠ ERANGE := by
    intro he
    subst he
    rw [parseColor_stale] at h
    simp at h
  exact ⟨ht, herr, parseColor_valid t pResult errno ht herr⟩

/-- When `parseSpeed` does not fail, the speed stored is in Slow..Fast. -/
theorem parseSpeed_ok (arg : CString) (pResult : Speed) (errno : Int)
    (h : ¬ (parseSpeed arg pResult errno).nRetval < 0) :
    (parseSpeed arg pResult errno).nRetval = 0 ∧ Slow ≤ (parseSpeed arg pResult errno).result ∧
      (parseSpeed arg pResult errno).result ≤ Fast := by
  unfold parseSpeed at h ⊢
  simp only at h ⊢
  split_ifs at h ⊢ with hc
  · simp at h
  · refine ⟨rfl, ?_, ?_⟩
    · show (1 : Int) ≤ (strtol arg 0 errno).1
      omega
    · show (strtol arg 0 errno).1 ≤ 3
      omega

/-- With at most four declared colors the value loop stays inside `args.colors`, and it ends
with 0 or -1. -/
theorem parseValues_defined (k : Int) (hk : k ≤ 4) :
    ∀ (tokens : List CString) (args : Arguments) (n : Nat) (errno : Int),
      ∃ p, parseValues k tokens args n errno = some p ∧ (p.nRetval = 0 ∨ p.nRetval = -1) := by
  intro tokens
  induction tokens with
  | nil => intro args n errno; exact ⟨_, rfl, Or.inl rfl⟩
  | cons t ts ih =>
    intro args n errno
    unfold parseValues
    by_cases hn : (n : Int) < k
    · have h4 : n < MAX_NUM_COLORS := by
        simp only [MAX_NUM_COLORS]
        omega
      simp only [hn, if_true, dif_pos h4]
      split_ifs
      · exact ⟨_, rfl, Or.inr rfl⟩
      · exact ih _ _ _
    · simp only [hn, if_false]
      split_ifs
      · exact ⟨_, rfl, Or.inr rfl⟩
      · exact ih _ _ _

/-- The value loop on valid color tokens: each is stored in the next color slot, the slots
before and the speed are kept, and the loop goes on with what follows the tokens. -/
theorem parseValues_colors (k : Int) (rest : List CString) (errno : Int) :
    ∀ (cs : List CString) (args : Arguments) (n : Nat),
      ((n + cs.length : Nat) : Int) ≤ k → n + cs.length ≤ MAX_NUM_COLORS →
      (∀ t ∈ cs, matchesHex6 t) → (cs ≠ [] → errno ≠ ERANGE) →
      ∃ a, parseValues k (cs ++ rest) args n errno = parseValues k rest a (n + cs.length) errno ∧
        a.speed = args.speed ∧
        (∀ j : Fin MAX_NUM_COLORS, j.val < n → a.colors.get j = args.colors.get j) ∧
        (∀ (i : Nat) (hi : i < cs.length) (h4 : n + i < MAX_NUM_COLORS),
          a.colors.get ⟨n + i, h4⟩ = colorOfToken (cs.get ⟨i, hi⟩)) := by
  intro cs
  induction cs with
  | nil =>
    intro args n _ _ _ _
    exact ⟨args, rfl, rfl, fun _ _ => rfl, fun i hi => absurd hi (by simp)⟩
  | cons t ts ih =>
    intro args n hk h4 hvalid herr
    simp only [List.length_cons] at hk h4
    have hn : (n : Int) < k := by omega
    have hn4 : n < MAX_NUM_COLORS := by omega
    have hne : errno ≠ ERANGE := herr (by simp)
    have hpc := parseColor_valid t (args.colors.get ⟨n, hn4⟩) errno (hvalid t (by simp)) hne
    obtain ⟨a, ha, hspeed, hbefore, hstored⟩ :=
      ih { args with colors := args.colors.set ⟨n, hn4⟩ (colorOfToken t) } (n + 1)
        (by omega) (by omega) (fun x hx => hvalid x (List.mem_cons_of_mem _ hx)) (fun _ => hne)
    refine ⟨a, ?_, hspeed, ?_, ?_⟩
    · rw [List.cons_append, parseValues]
      simp only [hn, if_true, dif_pos hn4, hpc, lt_self_iff_false, if_false]
      rw [ha]
      congr 1
      simp only [List.length_cons]
      omega
    · intro j hj
      rw [hbefore j (by omega)]
      simp only
      rw [Mathlib.Vector.get_set_of_ne]
      intro hcontra
      rw [← hcontra] at hj
      simp at hj
    · intro i hi h4i
      cases i with
      | zero =>
        have := hbefore ⟨n, hn4⟩ (by simp)
        simp only [Nat.add_zero, List.get_eq_getElem, List.getElem_cons_zero]
        rw [this]
        simp only [Mathlib.Vector.get_set_same]
      | succ i =>
        have hi' : i < ts.length := by simpa using hi
        have := hstored i hi' (by omega)
        simp only [List.get_eq_getElem, List.getElem_cons_succ]
        simp only [List.get_eq_getElem] at this
        rw [← this]
        congr 1
        apply Fin.ext
        simp only
        omega

/-- When the value loop does not fail on color tokens followed by `rest`, the color tokens are
valid and `errno` was not `ERANGE` when the first of them was parsed. -/
theorem parseValues_colors_ok (k : Int) (rest : List CString) (errno : Int) :
    ∀ (cs : List CString) (args : Arguments) (n : Nat) (p : Parsed Arguments),
      ((n + cs.length : Nat) : Int) ≤ k → n + cs.length ≤ MAX_NUM_COLORS →
      parseValues k (cs ++ rest) args n errno = some p → ¬ p.nRetval < 0 →
      (∀ t ∈ cs, matchesHex6 t) ∧ (cs ≠ [] → errno ≠ ERANGE) := by
  intro cs
  induction cs with
  | nil => intro args n p _ _ _ _; exact ⟨by simp, by simp⟩
  | cons t ts ih =>
    intro args n p hk h4 h hp
    simp only [List.length_cons] at hk h4
    have hn : (n : Int) < k := by omega
    have hn4 : n < MAX_NUM_COLORS := by omega
    rw [List.cons_append, parseValues] at h
    simp only [hn, if_true, dif_pos hn4] at h
    by_cases hfail : (parseColor t (args.colors.get ⟨n, hn4⟩) errno).nRetval < 0
    · simp only [hfail, if_true, Option.some.injEq] at h
      rw [← h] at hp
      simp at hp
    · obtain ⟨ht, hne, hpc⟩ := parseColor_ok t _ errno hfail
      simp only [hfail, if_false] at h
      rw [hpc] at h
      obtain ⟨hts, -⟩ := ih _ (n + 1) p (by omega) (by omega) h hp
      refine ⟨?_, fun _ => hne⟩
      intro x hx
      rcases List.mem_cons.1 hx with rfl | hx
      · exact ht
      · exact hts x hx

/-- The value loop past the declared colors, on no token and on one token. -/
theorem parseValues_speed (k : Int) (args : Arguments) (n : Nat) (errno : Int)
    (hn : ¬ (n : Int) < k) :
    parseValues k [] args n errno = some ⟨0, args, errno⟩ ∧
    ∀ t : CString, parseValues k [t] args n errno =
      some ⟨if (parseSpeed t args.speed errno).nRetval < 0 then -1 else 0,
        { args with speed := (parseSpeed t args.speed errno).result },
        (parseSpeed t args.speed errno).errno⟩ := by
  refine ⟨rfl, ?_⟩
  intro t
  rw [parseValues]
  simp only [hn, if_false]
  split_ifs
  · rfl
  · rfl

/-- The declared arities: at most four colors and at most one speed. -/
theorem registered_arity (record : FunctionRecord) (hr : record ∈ FUNCTION_RECORDS) :
    0 ≤ record.nColors ∧ record.nColors ≤ 4 ∧ (record.nSpeed = 0 ∨ record.nSpeed = 1) := by
  simp only [FUNCTION_RECORDS, List.mem_cons, List.mem_singleton, List.not_mem_nil,
    or_false] at hr
  rcases hr with rfl | rfl | rfl | rfl | rfl | rfl | rfl | rfl | rfl | rfl | rfl | rfl | rfl | rfl <;>
    decide

/-- A failing `parseArguments` returns -1, leaves the `Messages` alone and calls no encoder. -/
theorem parseArguments_fail (argv : List CString) (messages : Messages) (args : Arguments)
    (errno verbose : Int) (outcome : ParseOutcome)
    (h : parseArguments argv messages args errno verbose = some outcome)
    (h0 : outcome.nRetval ≠ 0) :
    outcome.nRetval = -1 ∧ outcome.messages = messages ∧ outcome.calls = [] := by
  unfold parseArguments at h
  simp only at h
  split at h
  · simp only [Option.some.injEq] at h
    subst h
    exact ⟨rfl, rfl, rfl⟩
  · split at h
    · simp only [Option.some.injEq] at h
      subst h
      exact ⟨rfl, rfl, rfl⟩
    · split_ifs at h
      · simp only [Option.some.injEq] at h
        subst h
        exact ⟨rfl, rfl, rfl⟩
      · split at h
        · simp at h
        · split_ifs at h
          · simp only [Option.some.injEq] at h
            subst h
            exact ⟨rfl, rfl, rfl⟩
          · split at h
            · simp at h
            · simp only [Option.some.injEq] at h
              subst h
              simp at h0

/-- What a succeeding `parseArguments` went through. -/
theorem parseArguments_inv (argv : List CString) (messages : Messages) (args : Arguments)
    (errno verbose : Int) (outcome : ParseOutcome)
    (h : parseArguments argv messages args errno verbose = some outcome)
    (h0 : outcome.nRetval = 0) :
    ∃ (optind : Nat) (record : FunctionRecord) (parsed : Parsed Arguments) (a2 : Arguments),
      scanOptions (argv.drop 1) 1 verbose = (outcome.verbose, some optind) ∧
      (argv.length : Int) - optind > 0 ∧
      findFunction (argv.getD optind []) FUNCTION_RECORDS = some record ∧
      (argv.length : Int) - optind = 1 + record.nColors + record.nSpeed ∧
      parseValues record.nColors (argv.drop (optind + 1)) args 0 errno = some parsed ∧
      ¬ parsed.nRetval < 0 ∧ parsed.errno = outcome.errno ∧
      record.function parsed.result messages = some (a2, outcome.messages) ∧
      outcome.calls = [(record.szName, parsed.result)] := by
  unfold parseArguments at h
  simp only at h
  split at h
  · simp only [Option.some.injEq] at h
    subst h
    simp at h0
  · rename_i v optind hscan
    split at h
    · simp only [Option.some.injEq] at h
      subst h
      simp at h0
    · rename_i record hfind
      split_ifs at h with hcount
      · simp only [Option.some.injEq] at h
        subst h
        simp at h0
      · split at h
        · simp at h
        · rename_i parsed hparsed
          split_ifs at h with hneg
          · simp only [Option.some.injEq] at h
            subst h
            simp at h0
          · split at h
            · simp at h
            · rename_i a2 outputs hcall
              simp only [Option.some.injEq] at h
              subst h
              have hpos : (argv.length : Int) - optind > 0 := by
                by_contra hno
                simp only [hno, if_false] at hfind
                simp at hfind
              simp only [hpos, if_true] at hfind
              exact ⟨optind, record, parsed, a2, hscan, hpos, hfind, by simpa using hcount,
                hparsed, hneg, rfl, hcall, rfl⟩

/-- Option scanning on a command line: the options `-v`, then a command that does not start
with `-`. -/
theorem scanOptions_command (options : List CString) (cmd : CString) (tokens : List CString)
    (verbose : Int) (hopt : ∀ o ∈ options, o = cstr "-v") (hdash : cmd.head? ≠ some 45) :
    scanOptions (options ++ cmd :: tokens) 1 verbose =
      (verboseAfter options verbose, some (1 + options.length)) := by
  rw [scanOptions_v (cmd :: tokens) options 1 verbose hopt]
  unfold verboseAfter
  by_cases hnil : options = []
  · subst hnil
    simp [scanOptions_stop cmd tokens 1 verbose hdash]
  · simp [hnil, scanOptions_stop cmd tokens _ 1 hdash]

/-- The steps of `parseArguments` after the command of a command line has been found. -/
theorem parseArguments_command (prog : CString) (options : List CString) (cmd : CString)
    (tokens : List CString) (messages : Messages) (args : Arguments) (errno verbose : Int)
    (hopt : ∀ o ∈ options, o = cstr "-v") (hdash : cmd.head? ≠ some 45)
    (record : FunctionRecord) (hfind : findFunction cmd FUNCTION_RECORDS = some record) :
    parseArguments (prog :: (options ++ cmd :: tokens)) messages args errno verbose =
      if (tokens.length : Int) ≠ record.nColors + record.nSpeed then
        some ⟨-1, messages, [], errno, verboseAfter options verbose⟩
      else
        match parseValues record.nColors tokens args 0 errno with
        | none => none
        | some parsed =>
          if parsed.nRetval < 0 then
            some ⟨-1, messages, [], parsed.errno, verboseAfter options verbose⟩
          else
            match record.function parsed.result messages with
            | none => none
            | some (_, outputs) =>
              some ⟨0, outputs, [(record.szName, parsed.result)], parsed.errno,
                verboseAfter options verbose⟩ := by
  have hget : (prog :: (options ++ cmd :: tokens)).getD (1 + options.length) [] = cmd := by
    rw [Nat.add_comm, List.getD_cons_succ, List.getD_eq_getElem?_getD,
      List.getElem?_append_right (le_refl _)]
    simp
  have hdrop : (prog :: (options ++ cmd :: tokens)).drop (1 + options.length + 1) = tokens := by
    have : 1 + options.length + 1 = (options.length + 1) + 1 := by omega
    rw [this, List.drop_succ_cons, List.drop_append_eq_append_drop]
    simp
  have hlen : (((prog :: (options ++ cmd :: tokens)).length : Nat) : Int) -
      ((1 + options.length : Nat) : Int) = 1 + tokens.length := by
    simp only [List.length_cons, List.length_append]
    push_cast
    omega
  have hpos : (1 : Int) + tokens.length > 0 := by omega
  unfold parseArguments
  simp only [List.drop_succ_cons, List.drop_zero,
    scanOptions_command options cmd tokens verbose hopt hdash, hget, hdrop, hlen, hpos, if_true,
    hfind]
  by_cases hcount : (tokens.length : Int) = record.nColors + record.nSpeed
  · have h1 : ¬ ((1 : Int) + tokens.length ≠ 1 + record.nColors + record.nSpeed) := by
      omega
    rw [if_neg h1, if_neg (not_not.2 hcount)]
  · have h1 : (1 : Int) + tokens.length ≠ 1 + record.nColors + record.nSpeed := by
      omega
    rw [if_pos h1, if_pos hcount]

/-- The value loop on a command line with the declared number of valid color tokens followed
by the declared number of valid speed tokens. -/
theorem parseValues_valid (record : FunctionRecord) (hr : record ∈ FUNCTION_RECORDS)
    (colorTokens speedTokens : List CString)
    (hk : (colorTokens.length : Int) = record.nColors)
    (hs : (speedTokens.length : Int) = record.nSpeed)
    (hcol : ∀ t ∈ colorTokens, matchesHex6 t)
    (v : Nat) (hv1 : 1 ≤ v) (hv3 : v ≤ 3) (hspd : ∀ t ∈ speedTokens, StartsWithLiteral t v)
    (args : Arguments) (errno : Int) (herr : errno ≠ ERANGE) :
    ∃ a, parseValues record.nColors (colorTokens ++ speedTokens) args 0 errno =
        some ⟨0, a, errno⟩ ∧
      (∀ (i : Nat) (hi : i < colorTokens.length) (h4 : i < MAX_NUM_COLORS),
        a.colors.get ⟨i, h4⟩ = colorOfToken (colorTokens.get ⟨i, hi⟩)) ∧
      (record.nSpeed = 1 → a.speed = (v : Int)) ∧ (record.nSpeed = 0 → a.speed = args.speed) := by
  obtain ⟨hk0, hk4, hs01⟩ := registered_arity record hr
  have hlen4 : 0 + colorTokens.length ≤ MAX_NUM_COLORS := by
    simp only [MAX_NUM_COLORS]
    omega
  obtain ⟨a1, hrun, hspeed, -, hstored⟩ :=
    parseValues_colors record.nColors speedTokens errno colorTokens args 0
      (by omega) hlen4 hcol (fun _ => herr)
  have hstored' : ∀ (i : Nat) (hi : i < colorTokens.length) (h4 : i < MAX_NUM_COLORS),
      a1.colors.get ⟨i, h4⟩ = colorOfToken (colorTokens.get ⟨i, hi⟩) := by
    intro i hi h4
    have := hstored i hi (by omega)
    simp only [Nat.zero_add] at this
    exact this
  have hpast : ¬ ((0 + colorTokens.length : Nat) : Int) < record.nColors := by omega
  obtain ⟨hnone, hone⟩ := parseValues_speed record.nColors a1 (0 + colorTokens.length) errno hpast
  rw [hrun]
  rcases hs01 with h0 | h1
  · have hnil : speedTokens = [] := by
      apply List.eq_nil_of_length_eq_zero
      omega
    subst hnil
    refine ⟨a1, hnone, hstored', ?_, fun _ => hspeed⟩
    intro hcontra
    omega
  · have hlen1 : speedTokens.length = 1 := by omega
    obtain ⟨t, rfl⟩ := List.length_eq_one.1 hlen1
    have hacc := parseSpeed_accept t a1.speed errno v herr hv1 hv3 (hspd t (by simp))
    rw [hone t, hacc]
    refine ⟨{ a1 with speed := (v : Int) }, by simp, hstored', fun _ => rfl, ?_⟩
    intro hcontra
    omega

/-- When the value loop does not fail on the declared number of color tokens followed by the
declared number of speed tokens, the color tokens are valid and stored in order, and a
declared speed was parsed to a value in Slow..Fast. -/
theorem parseValues_ok (record : FunctionRecord) (hr : record ∈ FUNCTION_RECORDS)
    (colorTokens speedTokens : List CString)
    (hk : (colorTokens.length : Int) = record.nColors)
    (hs : (speedTokens.length : Int) = record.nSpeed)
    (args : Arguments) (errno : Int) (parsed : Parsed Arguments)
    (h : parseValues record.nColors (colorTokens ++ speedTokens) args 0 errno = some parsed)
    (hok : ¬ parsed.nRetval < 0) :
    (∀ t ∈ colorTokens, matchesHex6 t) ∧
      (∀ (i : Nat) (hi : i < colorTokens.length) (h4 : i < MAX_NUM_COLORS),
        parsed.result.colors.get ⟨i, h4⟩ = colorOfToken (colorTokens.get ⟨i, hi⟩)) ∧
      (record.nSpeed = 1 → Slow ≤ parsed.result.speed ∧ parsed.result.speed ≤ Fast) ∧
      (∀ t ∈ speedTokens, ∃ v, 1 ≤ v ∧ v ≤ 3 ∧ StartsWithLiteral t v) := by
  obtain ⟨hk0, hk4, hs01⟩ := registered_arity record hr
  have hlen4 : 0 + colorTokens.length ≤ MAX_NUM_COLORS := by
    simp only [MAX_NUM_COLORS]
    omega
  obtain ⟨hvalid, herr⟩ := parseValues_colors_ok record.nColors speedTokens errno colorTokens
    args 0 parsed (by omega) hlen4 h hok
  obtain ⟨a1, hrun, -, -, hstored⟩ :=
    parseValues_colors record.nColors speedTokens errno colorTokens args 0
      (by omega) hlen4 hvalid herr
  have hstored' : ∀ (i : Nat) (hi : i < colorTokens.length) (h4 : i < MAX_NUM_COLORS),
      a1.colors.get ⟨i, h4⟩ = colorOfToken (colorTokens.get ⟨i, hi⟩) := by
    intro i hi h4
    have := hstored i hi (by omega)
    simp only [Nat.zero_add] at this
    exact this
  have hpast : ¬ ((0 + colorTokens.length : Nat) : Int) < record.nColors := by omega
  obtain ⟨hnone, hone⟩ := parseValues_speed record.nColors a1 (0 + colorTokens.length) errno hpast
  rw [hrun] at h
  rcases hs01 with h0 | h1
  · have hnil : speedTokens = [] := by
      apply List.eq_nil_of_length_eq_zero
      omega
    subst hnil
    rw [hnone] at h
    simp only [Option.some.injEq] at h
    subst h
    refine ⟨hvalid, hstored', ?_, by simp⟩
    intro hcontra
    omega
  · have hlen1 : speedTokens.length = 1 := by omega
    obtain ⟨t, rfl⟩ := List.length_eq_one.1 hlen1
    rw [hone t] at h
    simp only [Option.some.injEq] at h
    subst h
    have hnofail : ¬ (parseSpeed t a1.speed errno).nRetval < 0 := by
      intro hfail
      simp only [hfail, if_true] at hok
      simp at hok
    obtain ⟨-, hlo, hhi⟩ := parseSpeed_ok t a1.speed errno hnofail
    refine ⟨hvalid, hstored', fun _ => ⟨hlo, hhi⟩, ?_⟩
    intro x hx
    rw [List.mem_singleton] at hx
    subst hx
    by_contra hno
    rw [parseSpeed_reject x a1.speed errno hno] at hnofail
    simp at hnofail

/-- The arguments of a command line from `argv[optind]` on, split as the count check of
`parseArguments` has them. -/
theorem argv_split (argv : List CString) (optind : Nat) (k s : Int) (hk0 : 0 ≤ k) (hs0 : 0 ≤ s)
    (hcount : (argv.length : Int) - optind = 1 + k + s) :
    ∃ (before : List CString) (colorTokens speedTokens : List CString),
      argv = before ++ argv.getD optind [] :: (colorTokens ++ speedTokens) ∧
      argv.drop (optind + 1) = colorTokens ++ speedTokens ∧
      (colorTokens.length : Int) = k ∧ (speedTokens.length : Int) = s := by
  have hlt : optind < argv.length := by omega
  refine ⟨argv.take optind, (argv.drop (optind + 1)).take k.toNat,
    (argv.drop (optind + 1)).drop k.toNat, ?_, ?_, ?_, ?_⟩
  · rw [List.take_append_drop, List.getD_eq_getElem _ _ hlt, ← List.drop_eq_getElem_cons hlt,
      List.take_append_drop]
  · rw [List.take_append_drop]
  · rw [List.length_take, List.length_drop]
    omega
  · rw [List.length_drop, List.length_drop]
    omega

/-- What holds at the call `pDesiredFunc->function(&args, messages)` of a `parseArguments`
that got past the value loop. -/
theorem call_in_bounds (argv : List CString) (messages : Messages) (args : Arguments)
    (errno : Int) (optind : Nat) (record : FunctionRecord) (parsed : Parsed Arguments)
    (hfind : findFunction (argv.getD optind []) FUNCTION_RECORDS = some record)
    (hcount : (argv.length : Int) - optind = 1 + record.nColors + record.nSpeed)
    (hparsed : parseValues record.nColors (argv.drop (optind + 1)) args 0 errno = some parsed)
    (hok : ¬ parsed.nRetval < 0) :
    record ∈ FUNCTION_RECORDS ∧ 0 ≤ record.nColors ∧ record.nColors ≤ 4 ∧
      (∃ (before : List CString) (cmd : CString) (colorTokens speedTokens : List CString),
        argv = before ++ cmd :: (colorTokens ++ speedTokens) ∧
        findFunction cmd FUNCTION_RECORDS = some record ∧
        (colorTokens.length : Int) = record.nColors ∧
        (speedTokens.length : Int) = record.nSpeed ∧
        (∀ t ∈ colorTokens, matchesHex6 t) ∧
        (∀ (i : Nat) (hi : i < colorTokens.length) (h4 : i < MAX_NUM_COLORS),
          parsed.result.colors.get ⟨i, h4⟩ = colorOfToken (colorTokens.get ⟨i, hi⟩))) ∧
      (record.nSpeed = 1 → Slow ≤ parsed.result.speed ∧ parsed.result.speed ≤ Fast ∧
        ∃ sb, speedByteValue parsed.result.speed = some sb) ∧
      (∃ a2 out, record.function parsed.result messages = some (a2, out)) := by
  have hr : record ∈ FUNCTION_RECORDS := (findFunction_some _ _ record hfind).1
  obtain ⟨hk0, hk4, hs01⟩ := registered_arity record hr
  have hs0 : 0 ≤ record.nSpeed := by omega
  obtain ⟨before, cs, ss, hargv, hdrop, hcs, hss⟩ :=
    argv_split argv optind record.nColors record.nSpeed hk0 hs0 hcount
  rw [hdrop] at hparsed
  obtain ⟨hvalid, hstored, hlegal, -⟩ := parseValues_ok record hr cs ss hcs hss args errno parsed
    hparsed hok
  obtain ⟨a2, out, hcall, -⟩ := shape_registered record hr parsed.result messages hlegal
  refine ⟨hr, hk0, hk4, ⟨before, _, cs, ss, hargv, hfind, hcs, hss, hvalid, hstored⟩, ?_,
    ⟨a2, out, hcall⟩⟩
  intro h1
  obtain ⟨hlo, hhi⟩ := hlegal h1
  obtain ⟨sb, hsb, -⟩ := speedByteValue_legal parsed.result.speed hlo hhi
  exact ⟨hlo, hhi, sb, hsb⟩

/-- The function `parseArguments` never reads or writes outside an array. -/
theorem parseArguments_defined (argv : List CString) (messages : Messages) (args : Arguments)
    (errno verbose : Int) :
    ∃ outcome, parseArguments argv messages args errno verbose = some outcome := by
  unfold parseArguments
  simp only
  split
  · exact ⟨_, rfl⟩
  · rename_i v optind hscan
    split
    · exact ⟨_, rfl⟩
    · rename_i record hfind
      split_ifs with hcount
      · exact ⟨_, rfl⟩
      · have hpos : (argv.length : Int) - optind > 0 := by
          by_contra hno
          simp only [hno, if_false] at hfind
          simp at hfind
        simp only [hpos, if_true] at hfind
        have hr : record ∈ FUNCTION_RECORDS := (findFunction_some _ _ record hfind).1
        obtain ⟨-, hk4, -⟩ := registered_arity record hr
        obtain ⟨parsed, hparsed, -⟩ :=
          parseValues_defined record.nColors hk4 (argv.drop (optind + 1)) args 0 errno
        rw [hparsed]
        simp only
        split_ifs with hneg
        · exact ⟨_, rfl⟩
        · obtain ⟨-, -, -, -, -, a2, out, hcall⟩ :=
            call_in_bounds argv messages args errno optind record parsed hfind
              (by simpa using hcount) hparsed hneg
          rw [hcall]
          exact ⟨_, rfl⟩

/-- A failing `parseArguments` makes `main` write nothing and end with exit status 0. -/
theorem main_of_fail (argv : List CString) (host : HIDHost) (messages : Messages)
    (args : Arguments) (outcome : ParseOutcome)
    (h : parseArguments argv messages args 0 0 = some outcome) (h0 : outcome.nRetval ≠ 0) :
    main argv host messages args = some (0, []) := by
  unfold main
  rw [h]
  simp only [h0, if_false]

theorem sampleRecord_mem : sampleRecord ∈ FUNCTION_RECORDS := by
  simp [FUNCTION_RECORDS, sampleRecord]

theorem sampleStaticRecord_mem : sampleStaticRecord ∈ FUNCTION_RECORDS := by
  simp [FUNCTION_RECORDS, sampleStaticRecord]

theorem sample_speed_token : ∀ t ∈ [cstr "2"], StartsWithLiteral t 2 := by
  intro t ht
  rw [List.mem_singleton] at ht
  subst ht
  exact ⟨[], [], 10, cstr "2", [], by decide, by decide, Or.inl rfl,
    ⟨[], by decide, Or.inl ⟨rfl, by decide⟩⟩, by decide⟩

/-! ## Transmission -/

/-- C1: when the host enumerates `devices` (distinct device references, as in a `CFSet`) and
`nMessages` = N is within the six-slot array, `handleUsb` returns 0 and writes, to each device
that matches the selector and in the order of enumeration, the feature reports
`messages[0..N-1]` (report id = byte 0, length 17), then "set" `5d b5 00..00`, then "apply"
`5d b4 00..00`; the reports that reach a matching device are exactly this sequence, once, and
no report reaches any other device. -/
theorem handleUsb_reports (host : HIDHost) (devices : List HIDDevice) (pMessages : Messages)
    (hcreate : host.managerCreated = true) (hopen : host.openReturn ≠ kIOReturnError)
    (hdevices : host.devices = some devices)
    (hdistinct : (devices.map HIDDevice.ref).Nodup)
    (hN : pMessages.nMessages ≤ MAX_NUM_MESSAGES) :
    ∃ written, handleUsb host pMessages = some (0, written) ∧
      written = ((devices.filter isTargetDevice).flatMap fun d => expectedReports d pMessages) ∧
      (∀ d ∈ devices, isTargetDevice d = true →
        written.filter (fun r => r.device = d.ref) = expectedReports d pMessages) ∧
      (∀ d ∈ devices, isTargetDevice d = false →
        written.filter (fun r => r.device = d.ref) = []) ∧
      (∀ r ∈ written, ∃ d ∈ devices, isTargetDevice d = true ∧ r.device = d.ref) := by
  refine ⟨_, ?_, rfl, ?_, ?_, ?_⟩
  · simp only [handleUsb, hcreate, hopen, hdevices, visitDevices_eq pMessages hN devices,
      Bool.not_true, Bool.false_eq_true, if_false, Option.map_some']
  · intro d hd ht
    rw [filter_reports_present pMessages devices hdistinct d hd, ht]
    rfl
  · intro d hd ht
    rw [filter_reports_present pMessages devices hdistinct d hd, ht]
    rfl
  · intro r hr
    simp only [List.mem_flatMap, List.mem_filter] at hr
    obtain ⟨d, ⟨hd, ht⟩, hrd⟩ := hr
    exact ⟨d, hd, ht, expectedReports_device d pMessages r hrd⟩

/-- The reports written on `sampleHost`, where one of four devices is an Aura keyboard. -/
theorem handleUsb_reports_witness :
    sampleHost.managerCreated = true ∧ sampleHost.openReturn ≠ kIOReturnError ∧
    sampleHost.devices = some sampleDevices ∧ (sampleDevices.map HIDDevice.ref).Nodup ∧
    sampleMessages.nMessages ≤ MAX_NUM_MESSAGES ∧
    ∃ written, handleUsb sampleHost sampleMessages = some (0, written) ∧
      written =
        ((sampleDevices.filter isTargetDevice).flatMap fun d => expectedReports d sampleMessages) ∧
      (∀ d ∈ sampleDevices, isTargetDevice d = true →
        written.filter (fun r => r.device = d.ref) = expectedReports d sampleMessages) ∧
      (∀ d ∈ sampleDevices, isTargetDevice d = false →
        written.filter (fun r => r.device = d.ref) = []) ∧
      (∀ r ∈ written, ∃ d ∈ sampleDevices, isTargetDevice d = true ∧ r.device = d.ref) :=
  ⟨rfl, by decide, rfl, by decide, by decide,
    handleUsb_reports sampleHost sampleDevices sampleMessages rfl (by decide) rfl (by decide)
      (by decide)⟩

/-! ## Encoders: byte layout -/

/-- C2: for every four colors, `multi_static` sets `nMessages` to 4 and message `i`
(for `i` in 0..3) is the 17-byte buffer `5d b3 (i+1) 00 R_i G_i B_i eb 00 .. 00`. -/
theorem multi_static_layout (args : Arguments) (outputs : Messages) :
    ∃ out, multi_static args outputs = some (args, out) ∧ out.nMessages = 4 ∧
      ∀ i : Fin 4, (out.messages.get (zoneSlot i)).toList =
        [0x5d, 0xb3, i.val + 1, 0, (args.colors.get i).nRed, (args.colors.get i).nGreen,
          (args.colors.get i).nBlue, 0xeb, 0, 0, 0, 0, 0, 0, 0, 0, 0] := by
  refine ⟨_, rfl, rfl, ?_⟩
  intro i
  rw [finRange_four]
  simp only [List.foldl, multi_static_body]
  fin_cases i <;>
    simp +decide only [Mathlib.Vector.get_set_eq_if, zoneSlot, if_true, if_false] <;> rfl

/-- C3: for every color, `single_static` sets `nMessages` to 1 and message 0 is the 17-byte
buffer `5d b3 00 00 R G B 00 .. 00`; for the color `ff0000` it is `5d b3 00 00 ff 00 00`
followed by ten zero bytes. -/
theorem single_static_layout (args : Arguments) (outputs : Messages) :
    (∃ out, single_static args outputs = some (args, out) ∧ out.nMessages = 1 ∧
      (out.messages.get 0).toList =
        [0x5d, 0xb3, 0, 0, (args.colors.get 0).nRed, (args.colors.get 0).nGreen,
          (args.colors.get 0).nBlue, 0, 0, 0, 0, 0, 0, 0, 0, 0, 0]) ∧
    (∀ rest : Mathlib.Vector Color 3, ∀ speed : Speed,
      ∃ out, single_static ⟨Mathlib.Vector.cons ⟨0xff, 0x00, 0x00⟩ rest, speed⟩ outputs =
          some (⟨Mathlib.Vector.cons ⟨0xff, 0x00, 0x00⟩ rest, speed⟩, out) ∧
        out.nMessages = 1 ∧
        (out.messages.get 0).toList =
          [0x5d, 0xb3, 0x00, 0x00, 0xff, 0x00, 0x00, 0, 0, 0, 0, 0, 0, 0, 0, 0, 0]) := by
  constructor
  · refine ⟨_, single_static_eq args outputs, rfl, ?_⟩
    dsimp only
    rw [Mathlib.Vector.get_set_same]
    rfl
  · intro rest speed
    refine ⟨_, single_static_eq _ outputs, rfl, ?_⟩
    dsimp only
    rw [Mathlib.Vector.get_set_same]
    obtain ⟨l, hl⟩ := rest
    rfl

/-- C4: for every primary and secondary color and every speed in Slow..Fast,
`single_breathing` sets `nMessages` to 1 and message 0 is the 17-byte buffer
`5d b3 00 01 R G B speedByte 00 01 R2 G2 B2 00 00 00 00`. -/
theorem single_breathing_layout (args : Arguments) (outputs : Messages)
    (hlo : Slow ≤ args.speed) (hhi : args.speed ≤ Fast) :
    ∃ sb out, speedByteValue args.speed = some sb ∧
      single_breathing args outputs = some (args, out) ∧ out.nMessages = 1 ∧
      (out.messages.get 0).toList =
        [0x5d, 0xb3, 0, 1, (args.colors.get 0).nRed, (args.colors.get 0).nGreen,
          (args.colors.get 0).nBlue, sb, 0, 1, (args.colors.get 1).nRed,
          (args.colors.get 1).nGreen, (args.colors.get 1).nBlue, 0, 0, 0, 0] := by
  obtain ⟨sb, hsb, -⟩ := speedByteValue_legal args.speed hlo hhi
  refine ⟨sb, _, hsb, single_breathing_eq args outputs sb hsb, rfl, ?_⟩
  dsimp only
  rw [Mathlib.Vector.get_set_same]
  rfl

/-- The layout of `single_breathing` on `sampleArguments`, whose speed is `Fast`. -/
theorem single_breathing_layout_witness :
    Slow ≤ sampleArguments.speed ∧ sampleArguments.speed ≤ Fast ∧
    ∃ sb out, speedByteValue sampleArguments.speed = some sb ∧
      single_breathing sampleArguments blankMessages = some (sampleArguments, out) ∧
      out.nMessages = 1 ∧
      (out.messages.get 0).toList =
        [0x5d, 0xb3, 0, 1, (sampleArguments.colors.get 0).nRed,
          (sampleArguments.colors.get 0).nGreen, (sampleArguments.colors.get 0).nBlue, sb, 0, 1,
          (sampleArguments.colors.get 1).nRed, (sampleArguments.colors.get 1).nGreen,
          (sampleArguments.colors.get 1).nBlue, 0, 0, 0, 0] :=
  ⟨by decide, by decide,
    single_breathing_layout sampleArguments blankMessages (by decide) (by decide)⟩

/-- C5: for every four colors and every speed in Slow..Fast, `multi_breathing` sets
`nMessages` to 4 and message `i` (for `i` in 0..3) is the 17-byte buffer
`5d b3 (i+1) 01 R_i G_i B_i speedByte 00 .. 00`, with one speed byte for all four. -/
theorem multi_breathing_layout (args : Arguments) (outputs : Messages)
    (hlo : Slow ≤ args.speed) (hhi : args.speed ≤ Fast) :
    ∃ sb out, speedByteValue args.speed = some sb ∧
      multi_breathing args outputs = some (args, out) ∧ out.nMessages = 4 ∧
      ∀ i : Fin 4, (out.messages.get (zoneSlot i)).toList =
        [0x5d, 0xb3, i.val + 1, 1, (args.colors.get i).nRed, (args.colors.get i).nGreen,
          (args.colors.get i).nBlue, sb, 0, 0, 0, 0, 0, 0, 0, 0, 0] := by
  obtain ⟨sb, hsb, -⟩ := speedByteValue_legal args.speed hlo hhi
  refine ⟨sb, _, hsb, multi_breathing_eq args outputs sb hsb, rfl, ?_⟩
  intro i
  rw [finRange_four]
  simp only [List.foldl]
  fin_cases i <;>
    simp +decide only [Mathlib.Vector.get_set_eq_if, zoneSlot, if_true, if_false] <;> rfl

/-- The layout of `multi_breathing` on `sampleArguments`, whose speed is `Fast`. -/
theorem multi_breathing_layout_witness :
    Slow ≤ sampleArguments.speed ∧ sampleArguments.speed ≤ Fast ∧
    ∃ sb out, speedByteValue sampleArguments.speed = some sb ∧
      multi_breathing sampleArguments blankMessages = some (sampleArguments, out) ∧
      out.nMessages = 4 ∧
      ∀ i : Fin 4, (out.messages.get (zoneSlot i)).toList =
        [0x5d, 0xb3, i.val + 1, 1, (sampleArguments.colors.get i).nRed,
          (sampleArguments.colors.get i).nGreen, (sampleArguments.colors.get i).nBlue, sb,
          0, 0, 0, 0, 0, 0, 0, 0, 0] :=
  ⟨by decide, by decide,
    multi_breathing_layout sampleArguments blankMessages (by decide) (by decide)⟩

/-- C6: for every speed in Slow..Fast, `single_colorcycle` sets `nMessages` to 1 and
message 0 is the 17-byte buffer `5d b3 00 02 ff 00 00 speedByte 00 .. 00`. -/
theorem single_colorcycle_layout (args : Arguments) (outputs : Messages)
    (hlo : Slow ≤ args.speed) (hhi : args.speed ≤ Fast) :
    ∃ sb out, speedByteValue args.speed = some sb ∧
      single_colorcycle args outputs = some (args, out) ∧ out.nMessages = 1 ∧
      (out.messages.get 0).toList =
        [0x5d, 0xb3, 0, 2, 0xff, 0, 0, sb, 0, 0, 0, 0, 0, 0, 0, 0, 0] := by
  obtain ⟨sb, hsb, -⟩ := speedByteValue_legal args.speed hlo hhi
  refine ⟨sb, _, hsb, single_colorcycle_eq args outputs sb hsb, rfl, ?_⟩
  dsimp only
  rw [Mathlib.Vector.get_set_same]
  rfl

/-- The layout of `single_colorcycle` on `sampleArguments`, whose speed is `Fast`. -/
theorem single_colorcycle_layout_witness :
    Slow ≤ sampleArguments.speed ∧ sampleArguments.speed ≤ Fast ∧
    ∃ sb out, speedByteValue sampleArguments.speed = some sb ∧
      single_colorcycle sampleArguments blankMessages = some (sampleArguments, out) ∧
      out.nMessages = 1 ∧
      (out.messages.get 0).toList =
        [0x5d, 0xb3, 0, 2, 0xff, 0, 0, sb, 0, 0, 0, 0, 0, 0, 0, 0, 0] :=
  ⟨by decide, by decide,
    single_colorcycle_layout sampleArguments blankMessages (by decide) (by decide)⟩

/-! ## Parsing: colors -/

/-- C7: for every six-character token of hexadecimal digits (and `errno` not left at `ERANGE`
by an earlier call), `parseColor` returns 0 and stores R = bits 16-23, G = bits 8-15,
B = bits 0-7 of the token's hexadecimal value; writing R, G, B as two hexadecimal digits each
gives the token in lower case. -/
theorem parseColor_roundtrip (t : CString) (pResult : Color) (errno : Int)
    (ht : matchesHex6 t) (herr : errno ≠ ERANGE) :
    (parseColor t pResult errno).nRetval = 0 ∧
      (parseColor t pResult errno).result.nRed = hexValue t / 2 ^ 16 % 2 ^ 8 ∧
      (parseColor t pResult errno).result.nGreen = hexValue t / 2 ^ 8 % 2 ^ 8 ∧
      (parseColor t pResult errno).result.nBlue = hexValue t % 2 ^ 8 ∧
      colorHex (parseColor t pResult errno).result = t.map toLowerAscii := by
  obtain ⟨a, b, c, d, e, f, rfl, ha, hb, hc, hd, he, hf⟩ := matchesHex6_digits t ht
  rw [parseColor_hex6 a b c d e f pResult errno ha hb hc hd he hf herr]
  obtain ⟨-, hv⟩ := strtol_hex6 a b c d e f errno ha hb hc hd he hf
  obtain ⟨ha1, -, -, ha4, -⟩ := isxdigit_digit a ha
  obtain ⟨hb1, -, -, hb4, -⟩ := isxdigit_digit b hb
  obtain ⟨hc1, -, -, hc4, -⟩ := isxdigit_digit c hc
  obtain ⟨hd1, -, -, hd4, -⟩ := isxdigit_digit d hd
  obtain ⟨he1, -, -, he4, -⟩ := isxdigit_digit e he
  obtain ⟨hf1, -, -, hf4, -⟩ := isxdigit_digit f hf
  refine ⟨rfl, ?_, ?_, ?_, ?_⟩
  · rw [hv]; dsimp only; omega
  · rw [hv]; dsimp only; omega
  · rw [hv]; dsimp only; omega
  · have h1 : ∀ x y : Nat, x < 16 → y < 16 → byteHex (x * 16 + y) = [hexChar x, hexChar y] := by
      intro x y hx hy
      have e1 : (x * 16 + y) / 16 = x := by omega
      have e2 : (x * 16 + y) % 16 = y := by omega
      simp only [byteHex, e1, e2]
    simp only [colorHex, h1 _ _ ha1 hb1, h1 _ _ hc1 hd1, h1 _ _ he1 hf1, ha4, hb4, hc4, hd4, he4,
      hf4, List.map, List.cons_append, List.nil_append]

/-- The token `Ab01eF` parses to the color it writes back as `ab01ef`. -/
theorem parseColor_roundtrip_witness :
    matchesHex6 (cstr "Ab01eF") ∧ (0 : Int) ≠ ERANGE ∧
      (parseColor (cstr "Ab01eF") ⟨1, 2, 3⟩ 0).nRetval = 0 ∧
      (parseColor (cstr "Ab01eF") ⟨1, 2, 3⟩ 0).result.nRed =
        hexValue (cstr "Ab01eF") / 2 ^ 16 % 2 ^ 8 ∧
      (parseColor (cstr "Ab01eF") ⟨1, 2, 3⟩ 0).result.nGreen =
        hexValue (cstr "Ab01eF") / 2 ^ 8 % 2 ^ 8 ∧
      (parseColor (cstr "Ab01eF") ⟨1, 2, 3⟩ 0).result.nBlue = hexValue (cstr "Ab01eF") % 2 ^ 8 ∧
      colorHex (parseColor (cstr "Ab01eF") ⟨1, 2, 3⟩ 0).result =
        (cstr "Ab01eF").map toLowerAscii :=
  ⟨by decide, by decide, parseColor_roundtrip (cstr "Ab01eF") ⟨1, 2, 3⟩ 0 (by decide) (by decide)⟩

/-- C8: a token that is not six hexadecimal digits makes `parseColor` return -1 and leave the
result `Color` as it was; and (with `errno` not left at `ERANGE` by an earlier call)
`parseColor` returns 0 if and only if the token matches `[0-9a-fA-F]{6}`. -/
theorem parseColor_accepts_iff (t : CString) (pResult : Color) (errno : Int) :
    (¬ matchesHex6 t →
      (parseColor t pResult errno).nRetval = -1 ∧
        (parseColor t pResult errno).result = pResult) ∧
    (errno ≠ ERANGE → ((parseColor t pResult errno).nRetval = 0 ↔ matchesHex6 t)) := by
  constructor
  · intro h
    rw [parseColor_reject t pResult errno h]
    exact ⟨rfl, rfl⟩
  · intro herr
    constructor
    · intro h0
      by_contra hno
      rw [parseColor_reject t pResult errno hno] at h0
      simp at h0
    · intro ht
      exact (parseColor_accept t pResult errno ht herr).1

/-- The token `ff00zz` is rejected and the color behind the pointer is kept. -/
theorem parseColor_accepts_iff_witness :
    ¬ matchesHex6 (cstr "ff00zz") ∧ (0 : Int) ≠ ERANGE ∧
      ((parseColor (cstr "ff00zz") ⟨1, 2, 3⟩ 0).nRetval = -1 ∧
        (parseColor (cstr "ff00zz") ⟨1, 2, 3⟩ 0).result = ⟨1, 2, 3⟩) ∧
      ((parseColor (cstr "ff00zz") ⟨1, 2, 3⟩ 0).nRetval = 0 ↔ matchesHex6 (cstr "ff00zz")) :=
  ⟨by decide, by decide,
    (parseColor_accepts_iff (cstr "ff00zz") ⟨1, 2, 3⟩ 0).1 (by decide),
    (parseColor_accepts_iff (cstr "ff00zz") ⟨1, 2, 3⟩ 0).2 (by decide)⟩

/-! ## Parsing: speeds -/

/-- C9, as the code has it: `parseSpeed` returns -1 and leaves the result as it was on every
string that does not start (after optional white space and an optional `+`) with a decimal,
`0`-octal or `0x`-hexadecimal literal of 1, 2 or 3 followed by no further digit of that base;
and (with `errno` not left at `ERANGE` by an earlier call) it returns 0 exactly on the strings
that do, whatever follows the literal, storing the Speed with the literal's value. -/
theorem parseSpeed_accepts_iff (arg : CString) (pResult : Speed) (errno : Int) :
    ((¬ ∃ v, 1 ≤ v ∧ v ≤ 3 ∧ StartsWithLiteral arg v) →
      (parseSpeed arg pResult errno).nRetval = -1 ∧
        (parseSpeed arg pResult errno).result = pResult) ∧
    (errno ≠ ERANGE → ∀ v, 1 ≤ v → v ≤ 3 → StartsWithLiteral arg v →
      (parseSpeed arg pResult errno).nRetval = 0 ∧
        (parseSpeed arg pResult errno).result = (v : Int)) ∧
    (errno ≠ ERANGE →
      ((parseSpeed arg pResult errno).nRetval = 0 ↔
        ∃ v, 1 ≤ v ∧ v ≤ 3 ∧ StartsWithLiteral arg v)) := by
  refine ⟨?_, ?_, ?_⟩
  · intro h
    rw [parseSpeed_reject arg pResult errno h]
    exact ⟨rfl, rfl⟩
  · intro herr v h1 h3 h
    rw [parseSpeed_accept arg pResult errno v herr h1 h3 h]
    exact ⟨rfl, rfl⟩
  · intro herr
    constructor
    · intro h0
      by_contra hno
      rw [parseSpeed_reject arg pResult errno hno] at h0
      simp at h0
    · rintro ⟨v, h1, h3, h⟩
      rw [parseSpeed_accept arg pResult errno v herr h1 h3 h]

/-- The string ` +0x02;` is accepted as the speed 2. -/
theorem parseSpeed_accepts_iff_witness :
    (0 : Int) ≠ ERANGE ∧ 1 ≤ 2 ∧ 2 ≤ 3 ∧ StartsWithLiteral (cstr " +0x02;") 2 ∧
      (parseSpeed (cstr " +0x02;") 7 0).nRetval = 0 ∧
      (parseSpeed (cstr " +0x02;") 7 0).result = ((2 : Nat) : Int) :=
  have hs : StartsWithLiteral (cstr " +0x02;") 2 :=
    ⟨cstr " ", [43], 16, cstr "0x02", cstr ";", by decide, by decide, Or.inr rfl,
      ⟨[48], by decide, Or.inr (Or.inr ⟨rfl, Or.inl (by decide)⟩)⟩, by decide⟩
  ⟨by decide, by decide, by decide, hs,
    (parseSpeed_accepts_iff (cstr " +0x02;") 7 0).2.1 (by decide) 2 (by decide) (by decide) hs⟩

/-- C9 as stated fails: `2abc` is not an integer literal, yet `parseSpeed` returns 0 on it and
stores the speed 2. -/
theorem parseSpeed_trailing_characters :
    (¬ ∃ base v, IsSmallLiteral base (cstr "2abc") v) ∧
      (parseSpeed (cstr "2abc") 7 0).nRetval = 0 ∧ (parseSpeed (cstr "2abc") 7 0).result = 2 := by
  refine ⟨?_, by decide, by decide⟩
  rintro ⟨base, v, zeros, -, hl⟩
  have h : cstr "2abc" = [50, 97, 98, 99] := by decide
  rw [h] at hl
  rcases hl with ⟨-, hl⟩ | ⟨-, hl⟩ | ⟨-, hl | hl⟩ <;> simp at hl

/-! ## Speed byte -/

/-- C10: `speedByteValue` maps Slow (1) to 0xe1, Medium (2) to 0xeb and Fast (3) to 0xf5,
and two speeds in Slow..Fast with the same byte are equal. -/
theorem speedByteValue_table :
    speedByteValue Slow = some 0xe1 ∧ speedByteValue Medium = some 0xeb ∧
    speedByteValue Fast = some 0xf5 ∧
    ∀ s t : Speed, Slow ≤ s → s ≤ Fast → Slow ≤ t → t ≤ Fast →
      speedByteValue s = speedByteValue t → s = t := by
  refine ⟨rfl, rfl, rfl, ?_⟩
  intro s t hs1 hs3 ht1 ht3
  interval_cases s <;> interval_cases t <;> decide

/-- The speed `Medium` is the only one with its byte. -/
theorem speedByteValue_table_witness :
    Slow ≤ Medium ∧ Medium ≤ Fast ∧ speedByteValue Medium = speedByteValue (1 + 1) ∧
      Medium = 1 + 1 :=
  ⟨by decide, by decide, rfl,
    speedByteValue_table.2.2.2 Medium (1 + 1) (by decide) (by decide) (by decide) (by decide) rfl⟩

/-! ## Registry lookup -/

/-- C11: for every command-name string `s` (any length), the registry lookup of
`parseArguments` finds a descriptor if and only if `s` equals, byte for byte, one of the 14
registered names; the descriptor found is then the one with that name, and no two descriptors
share a name; for any other `s` nothing is found and `parseArguments` returns -1 without
calling an encoder. -/
theorem findFunction_exact (s : CString) (hs : IsCString s) :
    (∀ record, findFunction s FUNCTION_RECORDS = some record ↔
      record ∈ FUNCTION_RECORDS ∧ record.szName = s) ∧
    ((∃ record, findFunction s FUNCTION_RECORDS = some record) ↔ s ∈ registeredNames) ∧
    (∀ r1 ∈ FUNCTION_RECORDS, ∀ r2 ∈ FUNCTION_RECORDS, r1.szName = r2.szName → r1 = r2) ∧
    (s ∉ registeredNames → s.head? ≠ some 45 →
      ∀ (prog : CString) (rest : List CString) (messages : Messages) (args : Arguments)
        (errno verbose : Int),
        parseArguments (prog :: s :: rest) messages args errno verbose =
          some ⟨-1, messages, [], errno, verbose⟩) := by
  refine ⟨findFunction_eq_some_iff s hs, ?_, ?_, ?_⟩
  · constructor
    · rintro ⟨record, h⟩
      obtain ⟨hm, rfl⟩ := (findFunction_eq_some_iff s hs record).1 h
      exact (registered_name record hm).2.2.2.1
    · intro h
      rw [← registeredNames_eq, List.mem_map] at h
      obtain ⟨record, hm, rfl⟩ := h
      exact ⟨record, (registered_name record hm).2.2.2.2⟩
  · intro r1 h1 r2 h2 heq
    have e1 := (registered_name r1 h1).2.2.2.2
    have e2 := (registered_name r2 h2).2.2.2.2
    rw [heq, e2] at e1
    exact (Option.some.inj e1).symm
  · intro hno hdash prog rest messages args errno verbose
    exact parseArguments_unknown prog s rest messages args errno verbose hdash
      (findFunction_unknown s hs hno)

/-- The name `Rainbow` is not registered: `macrogaura Rainbow` is rejected. -/
theorem findFunction_exact_witness :
    IsCString (cstr "Rainbow") ∧ cstr "Rainbow" ∉ registeredNames ∧
      (cstr "Rainbow").head? ≠ some 45 ∧
      parseArguments [cstr "macrogaura", cstr "Rainbow"] blankMessages sampleArguments 0 0 =
        some ⟨-1, blankMessages, [], 0, 0⟩ :=
  ⟨by decide, by decide, by decide,
    (findFunction_exact (cstr "Rainbow") (by decide)).2.2.2 (by decide) (by decide)
      (cstr "macrogaura") [] blankMessages sampleArguments 0 0⟩

/-! ## Rejected command lines -/

/-- C13: for every registered command, options `-v` or none, and an argument list of exactly
the declared number of valid color tokens followed by the declared number (0 or 1) of valid
speed tokens (with `errno` not left at `ERANGE`), `parseArguments` returns 0 and the `Messages`
are those of the command's encoder, called once, on `Arguments` whose color slot `j-1` holds
the color of the `j`-th token and whose speed, when one is declared, is the value of the last
token. -/
theorem parseArguments_encodes (record : FunctionRecord) (hr : record ∈ FUNCTION_RECORDS)
    (prog : CString) (options : List CString) (hopt : ∀ o ∈ options, o = cstr "-v")
    (colorTokens speedTokens : List CString)
    (hk : (colorTokens.length : Int) = record.nColors)
    (hs : (speedTokens.length : Int) = record.nSpeed)
    (hcol : ∀ t ∈ colorTokens, matchesHex6 t)
    (v : Nat) (hv1 : 1 ≤ v) (hv3 : v ≤ 3) (hspd : ∀ t ∈ speedTokens, StartsWithLiteral t v)
    (messages : Messages) (args : Arguments) (errno verbose : Int) (herr : errno ≠ ERANGE) :
    ∃ a a2 out,
      parseArguments (prog :: (options ++ record.szName :: (colorTokens ++ speedTokens)))
          messages args errno verbose =
        some ⟨0, out, [(record.szName, a)], errno, verboseAfter options verbose⟩ ∧
      record.function a messages = some (a2, out) ∧
      (∀ (i : Nat) (hi : i < colorTokens.length) (h4 : i < MAX_NUM_COLORS),
        a.colors.get ⟨i, h4⟩ = colorOfToken (colorTokens.get ⟨i, hi⟩)) ∧
      (record.nSpeed = 1 → a.speed = (v : Int)) := by
  obtain ⟨-, -, hdash, -, hfind⟩ := registered_name record hr
  obtain ⟨a, hvalues, hstored, hspeed, -⟩ :=
    parseValues_valid record hr colorTokens speedTokens hk hs hcol v hv1 hv3 hspd args errno herr
  have hlegal : record.nSpeed = 1 → Slow ≤ a.speed ∧ a.speed ≤ Fast := by
    intro h1
    rw [hspeed h1]
    constructor
    · show (1 : Int) ≤ (v : Int)
      omega
    · show (v : Int) ≤ 3
      omega
  obtain ⟨a2, out, hcall, -⟩ := shape_registered record hr a messages hlegal
  refine ⟨a, a2, out, ?_, hcall, hstored, hspeed⟩
  have hcount : ¬ (((colorTokens ++ speedTokens).length : Nat) : Int) ≠
      record.nColors + record.nSpeed := by
    simp only [List.length_append]
    push_cast
    omega
  rw [parseArguments_command prog options record.szName (colorTokens ++ speedTokens) messages
    args errno verbose hopt hdash record hfind, if_neg hcount, hvalues]
  simp only [lt_self_iff_false, if_false, hcall]

/-- The command line `macrogaura -v single_breathing ff0000 00FF7f 2`. -/
theorem parseArguments_encodes_witness :
    sampleRecord ∈ FUNCTION_RECORDS ∧ (∀ o ∈ [cstr "-v"], o = cstr "-v") ∧
      (([cstr "ff0000", cstr "00FF7f"].length : Nat) : Int) = sampleRecord.nColors ∧
      (([cstr "2"].length : Nat) : Int) = sampleRecord.nSpeed ∧
      (∀ t ∈ [cstr "ff0000", cstr "00FF7f"], matchesHex6 t) ∧ 1 ≤ 2 ∧ 2 ≤ 3 ∧
      (∀ t ∈ [cstr "2"], StartsWithLiteral t 2) ∧ (0 : Int) ≠ ERANGE ∧
      ∃ a a2 out,
        parseArguments (cstr "macrogaura" ::
            ([cstr "-v"] ++ sampleRecord.szName :: ([cstr "ff0000", cstr "00FF7f"] ++ [cstr "2"])))
            blankMessages sampleArguments 0 0 =
          some ⟨0, out, [(sampleRecord.szName, a)], 0, verboseAfter [cstr "-v"] 0⟩ ∧
        sampleRecord.function a blankMessages = some (a2, out) ∧
        (∀ (i : Nat) (hi : i < [cstr "ff0000", cstr "00FF7f"].length) (h4 : i < MAX_NUM_COLORS),
          a.colors.get ⟨i, h4⟩ = colorOfToken ([cstr "ff0000", cstr "00FF7f"].get ⟨i, hi⟩)) ∧
        (sampleRecord.nSpeed = 1 → a.speed = ((2 : Nat) : Int)) :=
  ⟨sampleRecord_mem, by decide, by decide, by decide, by decide, by decide, by decide,
    sample_speed_token, by decide,
    parseArguments_encodes sampleRecord sampleRecord_mem (cstr "macrogaura") [cstr "-v"]
      (by decide) [cstr "ff0000", cstr "00FF7f"] [cstr "2"] (by decide) (by decide) (by decide)
      2 (by decide) (by decide) sample_speed_token blankMessages sampleArguments 0 0
      (by decide)⟩

/-! ## Device selection -/

/-- C14: when the host enumerates `devices` (distinct device references), a device of the
list receives a feature report if and only if the vendor id it carries is 0x0b05 and the
product id it carries is 0x1854, 0x1869 or 0x1866 (for an `nMessages` within the array); and
when no enumerated device carries vendor id 0x0b05, no report is written at all and
`handleUsb` returns 0.  The ids are the properties of the device itself, not what the code
read from them. -/
theorem handleUsb_selects (host : HIDHost) (devices : List HIDDevice) (pMessages : Messages)
    (hcreate : host.managerCreated = true) (hopen : host.openReturn ≠ kIOReturnError)
    (hdevices : host.devices = some devices)
    (hdistinct : (devices.map HIDDevice.ref).Nodup) :
    (pMessages.nMessages ≤ MAX_NUM_MESSAGES →
      ∃ written, handleUsb host pMessages = some (0, written) ∧
        ∀ d ∈ devices, ((∃ w ∈ written, w.device = d.ref) ↔
          (d.vendorID = some 0x0b05 ∧
            (d.productID = some 0x1854 ∨ d.productID = some 0x1869 ∨
              d.productID = some 0x1866)))) ∧
    ((∀ d ∈ devices, d.vendorID ≠ some 0x0b05) →
      handleUsb host pMessages = some (0, [])) := by
  constructor
  · intro hN
    refine ⟨(devices.filter isTargetDevice).flatMap fun d => expectedReports d pMessages,
      ?_, ?_⟩
    · simp only [handleUsb, hcreate, hopen, hdevices, visitDevices_eq pMessages hN devices,
        Bool.not_true, Bool.false_eq_true, if_false, Option.map_some']
    · intro d hd
      have hfilter := filter_reports_present pMessages devices hdistinct d hd
      rw [← isTargetDevice_iff d]
      constructor
      · rintro ⟨w, hw, hwd⟩
        by_contra hno
        have hmem : w ∈ List.filter (fun r => decide (r.device = d.ref))
            (((devices.filter isTargetDevice).flatMap fun d => expectedReports d pMessages)) :=
          List.mem_filter.2 ⟨hw, by simpa using hwd⟩
        rw [hfilter] at hmem
        simp [hno] at hmem
      · intro ht
        refine ⟨featureReport d MESSAGE_APPLY, ?_, rfl⟩
        have hmem : featureReport d MESSAGE_APPLY ∈ expectedReports d pMessages := by
          simp only [expectedReports, List.mem_append, List.mem_cons, List.mem_singleton]
          right; right; left
          rfl
        rw [if_pos ht] at hfilter
        rw [← hfilter] at hmem
        exact (List.mem_filter.1 hmem).1
  · intro hnone
    have hread : ∀ d ∈ devices, get_int_property d.vendorID ≠ ASUS_VENDOR_ID := fun d hd hv =>
      hnone d hd ((get_int_property_eq_iff d.vendorID 0x0b05 (by decide)).1 hv)
    simp only [handleUsb, hcreate, hopen, hdevices,
      visitDevices_other_vendors pMessages devices hread,
      Bool.not_true, Bool.false_eq_true, if_false, Option.map_some']

/-- Of the four sample devices only the Aura keyboard receives reports; a host with a mouse
only gets none. -/
theorem handleUsb_selects_witness :
    sampleHost.managerCreated = true ∧ sampleHost.openReturn ≠ kIOReturnError ∧
      sampleHost.devices = some sampleDevices ∧ (sampleDevices.map HIDDevice.ref).Nodup ∧
      sampleMessages.nMessages ≤ MAX_NUM_MESSAGES ∧
      (∃ written, handleUsb sampleHost sampleMessages = some (0, written) ∧
        ∀ d ∈ sampleDevices, ((∃ w ∈ written, w.device = d.ref) ↔
          (d.vendorID = some 0x0b05 ∧
            (d.productID = some 0x1854 ∨ d.productID = some 0x1869 ∨
              d.productID = some 0x1866)))) ∧
      (∀ d ∈ [({ ref := 1, vendorID := some 0x046d, productID := some 0xc077 } : HIDDevice)],
        d.vendorID ≠ some 0x0b05) ∧
      handleUsb sampleHostWithoutKeyboard sampleMessages = some (0, []) :=
  ⟨rfl, by decide, rfl, by decide, by decide,
    (handleUsb_selects sampleHost sampleDevices sampleMessages rfl (by decide) rfl
      (by decide)).1 (by decide),
    by decide,
    (handleUsb_selects sampleHostWithoutKeyboard _ sampleMessages rfl (by decide) rfl
      (by decide)).2 (by decide)⟩

/-! ## Presets -/

/-- C15: for every incoming `Arguments`, `rainbow` produces the `Messages` that `multi_static`
produces for the colors red `ff0000`, yellow `ffff00`, cyan `00ffff`, magenta `ff00ff` in that
zone order (with any speed, which `multi_static` does not read). -/
theorem rainbow_eq_multi_static (args : Arguments) (outputs : Messages) (speed : Speed) :
    (rainbow args outputs).map Prod.snd =
      (multi_static { colors := rainbowColors, speed := speed } outputs).map Prod.snd := by
  unfold rainbow
  exact multi_static_colors _ _ outputs (rainbow_colors args)

/-- C16: for every incoming `Arguments`, each of `red`, `green`, `blue`, `yellow`, `cyan`,
`magenta`, `white`, `black` produces the `Messages` that `single_static` produces for its fixed
color `ff0000`, `00ff00`, `0000ff`, `ffff00`, `00ffff`, `ff00ff`, `ffffff`, `000000` (whatever
the other color slots and the speed are), so two calls with different `Arguments` produce the
same `Messages`. -/
theorem preset_eq_single_static (preset : Encoder) (color : Color)
    (hp : (preset, color) ∈ presetColors) (args : Arguments) (outputs : Messages) :
    (∀ (rest : Mathlib.Vector Color 3) (speed : Speed),
      (preset args outputs).map Prod.snd =
        (single_static { colors := Mathlib.Vector.cons color rest, speed := speed }
          outputs).map Prod.snd) ∧
    (∀ args2 : Arguments,
      (preset args outputs).map Prod.snd = (preset args2 outputs).map Prod.snd) := by
  simp only [presetColors, List.mem_cons, List.mem_singleton, Prod.mk.injEq,
    List.not_mem_nil, or_false] at hp
  have hcons : ∀ (c : Color) (rest : Mathlib.Vector Color 3),
      (Mathlib.Vector.cons c rest).get 0 = c := by
    intro c rest
    obtain ⟨l, hl⟩ := rest
    rfl
  rcases hp with h | h | h | h | h | h | h | h <;>
  · obtain ⟨hpreset, hcolor⟩ := h
    subst hpreset hcolor
    constructor
    · intro rest speed
      apply single_static_color
      rw [memcpyColor_get, hcons]
      rfl
    · intro args2
      apply single_static_color
      rw [memcpyColor_get, memcpyColor_get]

/-- The preset `blue` on two different `Arguments`. -/
theorem preset_eq_single_static_witness :
    (blue, (⟨0x00, 0x00, 0xff⟩ : Color)) ∈ presetColors ∧
      (∀ (rest : Mathlib.Vector Color 3) (speed : Speed),
        (blue sampleArguments blankMessages).map Prod.snd =
          (single_static { colors := Mathlib.Vector.cons ⟨0x00, 0x00, 0xff⟩ rest, speed := speed }
            blankMessages).map Prod.snd) ∧
      (∀ args2 : Arguments,
        (blue sampleArguments blankMessages).map Prod.snd =
          (blue args2 blankMessages).map Prod.snd) :=
  have hmem : (blue, (⟨0x00, 0x00, 0xff⟩ : Color)) ∈ presetColors :=
    List.mem_cons_of_mem _ (List.mem_cons_of_mem _ (List.mem_cons_self _ _))
  ⟨hmem, preset_eq_single_static blue ⟨0x00, 0x00, 0xff⟩ hmem sampleArguments blankMessages⟩

/-! ## Shape of every encoder output -/

/-- C17: each of the 14 registered encoders, on every `Arguments` with a speed in Slow..Fast,
returns with `nMessages` between 1 and 4 and equal to the count of its command (4 for
`multi_static`, `multi_breathing`, `rainbow`, 1 for the others), whatever the argument data;
each of these messages is 17 bytes starting `5d b3`; and every report `handleUsb` then writes,
the trailers included, has report id `5d` and length 17. -/
theorem registered_encoder_output (record : FunctionRecord) (hr : record ∈ FUNCTION_RECORDS)
    (args : Arguments) (outputs : Messages) (hlo : Slow ≤ args.speed) (hhi : args.speed ≤ Fast) :
    ∃ args2 out, record.function args outputs = some (args2, out) ∧
      1 ≤ out.nMessages ∧ out.nMessages ≤ 4 ∧
      HoldsModeMessages (messageCount record.szName) out ∧
      ∀ (host : HIDHost) (ret : Int) (written : List Report),
        handleUsb host out = some (ret, written) →
          ∀ w ∈ written, w.reportID = 0x5d ∧ w.reportLength = 17 := by
  obtain ⟨args2, out, h, hs⟩ := shape_registered record hr args outputs (fun _ => ⟨hlo, hhi⟩)
  have hcount : messageCount record.szName = 1 ∨ messageCount record.szName = 4 := by
    unfold messageCount
    split_ifs
    · exact Or.inr rfl
    · exact Or.inl rfl
  refine ⟨args2, out, h, ?_, ?_, hs, ?_⟩
  · rw [hs.1]; omega
  · rw [hs.1]; omega
  · intro host ret written hw
    exact handleUsb_report_ids host out _ (by omega) hs ret written hw

/-- The encoder of `multi_breathing` on `sampleArguments`. -/
theorem registered_encoder_output_witness :
    (⟨cstr "multi_breathing", multi_breathing, 4, 1⟩ : FunctionRecord) ∈ FUNCTION_RECORDS ∧
    Slow ≤ sampleArguments.speed ∧ sampleArguments.speed ≤ Fast ∧
    ∃ args2 out, multi_breathing sampleArguments blankMessages = some (args2, out) ∧
      1 ≤ out.nMessages ∧ out.nMessages ≤ 4 ∧
      HoldsModeMessages (messageCount (cstr "multi_breathing")) out ∧
      ∀ (host : HIDHost) (ret : Int) (written : List Report),
        handleUsb host out = some (ret, written) →
          ∀ w ∈ written, w.reportID = 0x5d ∧ w.reportLength = 17 :=
  have hmem : (⟨cstr "multi_breathing", multi_breathing, 4, 1⟩ : FunctionRecord) ∈
      FUNCTION_RECORDS := by
    simp [FUNCTION_RECORDS]
  ⟨hmem, by decide, by decide,
    registered_encoder_output _ hmem sampleArguments blankMessages (by decide) (by decide)⟩

/-! ## Exit status -/

/-- C18, as the code has it: whenever `parseArguments` fails (it then returns -1), `main` calls
no transmission, so no report is written, and the exit status of `main` is 0; the exit status
is 0 on every path, since `main` has no `return` statement. -/
theorem main_exit_status (argv : List CString) (host : HIDHost) (messages : Messages)
    (args : Arguments) :
    (∀ outcome, parseArguments argv messages args 0 0 = some outcome → outcome.nRetval ≠ 0 →
      outcome.nRetval = -1 ∧ main argv host messages args = some (0, [])) ∧
    (∀ status written, main argv host messages args = some (status, written) → status = 0) := by
  constructor
  · intro outcome h h0
    exact ⟨(parseArguments_fail argv messages args 0 0 outcome h h0).1,
      main_of_fail argv host messages args outcome h h0⟩
  · intro status written h
    unfold main at h
    split at h
    · simp at h
    · split_ifs at h
      · cases hu : handleUsb host _ with
        | none => rw [hu] at h; simp at h
        | some r =>
          rw [hu] at h
          simp only [Option.map_some', Option.some.injEq, Prod.mk.injEq] at h
          exact h.1.symm
      · simp only [Option.some.injEq, Prod.mk.injEq] at h
        exact h.1.symm

/-- The unknown command `purple` makes `parseArguments` return -1 and `main` exit with 0. -/
theorem main_exit_status_witness :
    parseArguments sampleUnknownArgv blankMessages sampleArguments 0 0 =
        some ⟨-1, blankMessages, [], 0, 0⟩ ∧
      (⟨-1, blankMessages, [], 0, 0⟩ : ParseOutcome).nRetval ≠ 0 ∧
      (⟨-1, blankMessages, [], 0, 0⟩ : ParseOutcome).nRetval = -1 ∧
      main sampleUnknownArgv sampleHost blankMessages sampleArguments = some (0, []) :=
  have h : parseArguments sampleUnknownArgv blankMessages sampleArguments 0 0 =
      some ⟨-1, blankMessages, [], 0, 0⟩ := by decide
  ⟨h, by decide,
    (main_exit_status sampleUnknownArgv sampleHost blankMessages sampleArguments).1 _ h
      (by decide)⟩

/-- C18 as stated fails: on the unknown command `purple`, `parseArguments` returns -1 and the
exit status of `main` is 0, not a non-zero value. -/
theorem main_exit_zero_on_failure :
    (∃ outcome, parseArguments sampleUnknownArgv blankMessages sampleArguments 0 0 =
        some outcome ∧ outcome.nRetval = -1) ∧
      ∃ written, main sampleUnknownArgv sampleHost blankMessages sampleArguments =
        some (0, written) := by
  refine ⟨⟨⟨-1, blankMessages, [], 0, 0⟩, by decide, rfl⟩, ⟨[], by decide⟩⟩

/-! ## Safety of the encoder call -/

/-- C19: `parseArguments` never leaves its arrays, and whenever it calls an encoder, the call
is for a registered record with at most 4 declared colors, the command is followed by exactly
`nColors` color tokens and `nSpeed` speed tokens, the color tokens are valid and have been
parsed into `colors[0..nColors-1]` in order, a declared speed is in Slow..Fast so that
`SPEED_BYTE_VALUES[speed - 1]` is inside the table, and the encoder returns. -/
theorem parseArguments_calls_in_bounds (argv : List CString) (messages : Messages)
    (args : Arguments) (errno verbose : Int) :
    (∃ outcome, parseArguments argv messages args errno verbose = some outcome) ∧
    ∀ outcome, parseArguments argv messages args errno verbose = some outcome →
      ∀ name a, (name, a) ∈ outcome.calls →
        ∃ record ∈ FUNCTION_RECORDS, record.szName = name ∧
          0 ≤ record.nColors ∧ record.nColors ≤ 4 ∧
          (∃ (before : List CString) (cmd : CString) (colorTokens speedTokens : List CString),
            argv = before ++ cmd :: (colorTokens ++ speedTokens) ∧
            findFunction cmd FUNCTION_RECORDS = some record ∧
            (colorTokens.length : Int) = record.nColors ∧
            (speedTokens.length : Int) = record.nSpeed ∧
            (∀ t ∈ colorTokens, matchesHex6 t) ∧
            (∀ (i : Nat) (hi : i < colorTokens.length) (h4 : i < MAX_NUM_COLORS),
              a.colors.get ⟨i, h4⟩ = colorOfToken (colorTokens.get ⟨i, hi⟩))) ∧
          (record.nSpeed = 1 → Slow ≤ a.speed ∧ a.speed ≤ Fast ∧
            ∃ sb, speedByteValue a.speed = some sb) ∧
          (∃ a2 out, record.function a messages = some (a2, out)) := by
  refine ⟨parseArguments_defined argv messages args errno verbose, ?_⟩
  intro outcome h name a hcall
  by_cases h0 : outcome.nRetval = 0
  · obtain ⟨optind, record, parsed, a2, -, -, hfind, hcount, hparsed, hok, -, -, hcalls⟩ :=
      parseArguments_inv argv messages args errno verbose outcome h h0
    rw [hcalls] at hcall
    simp only [List.mem_singleton, Prod.mk.injEq] at hcall
    obtain ⟨rfl, rfl⟩ := hcall
    obtain ⟨hr, hk0, hk4, htokens, hspeed, hret⟩ :=
      call_in_bounds argv messages args errno optind record parsed hfind hcount hparsed hok
    exact ⟨record, hr, rfl, hk0, hk4, htokens, hspeed, hret⟩
  · obtain ⟨-, -, hnone⟩ := parseArguments_fail argv messages args errno verbose outcome h h0
    rw [hnone] at hcall
    simp at hcall

/-- The call made on `macrogaura -v single_colorcycle 2`. -/
theorem parseArguments_calls_in_bounds_witness :
    parseArguments sampleCycleArgv blankMessages sampleArguments 0 0 =
        some sampleCycleOutcome ∧
      (cstr "single_colorcycle", ({ sampleArguments with speed := 2 } : Arguments)) ∈
        sampleCycleOutcome.calls ∧
      ∃ record ∈ FUNCTION_RECORDS, record.szName = cstr "single_colorcycle" ∧
        0 ≤ record.nColors ∧ record.nColors ≤ 4 ∧
        (∃ (before : List CString) (cmd : CString) (colorTokens speedTokens : List CString),
          sampleCycleArgv = before ++ cmd :: (colorTokens ++ speedTokens) ∧
          findFunction cmd FUNCTION_RECORDS = some record ∧
          (colorTokens.length : Int) = record.nColors ∧
          (speedTokens.length : Int) = record.nSpeed ∧
          (∀ t ∈ colorTokens, matchesHex6 t) ∧
          (∀ (i : Nat) (hi : i < colorTokens.length) (h4 : i < MAX_NUM_COLORS),
            ({ sampleArguments with speed := 2 } : Arguments).colors.get ⟨i, h4⟩ =
              colorOfToken (colorTokens.get ⟨i, hi⟩))) ∧
        (record.nSpeed = 1 →
          Slow ≤ ({ sampleArguments with speed := 2 } : Arguments).speed ∧
          ({ sampleArguments with speed := 2 } : Arguments).speed ≤ Fast ∧
          ∃ sb, speedByteValue ({ sampleArguments with speed := 2 } : Arguments).speed =
            some sb) ∧
        (∃ a2 out, record.function { sampleArguments with speed := 2 } blankMessages =
          some (a2, out)) :=
  have h : parseArguments sampleCycleArgv blankMessages sampleArguments 0 0 =
      some sampleCycleOutcome := by decide
  have hcall : (cstr "single_colorcycle", ({ sampleArguments with speed := 2 } : Arguments)) ∈
      sampleCycleOutcome.calls := List.mem_singleton.2 rfl
  ⟨h, hcall,
    (parseArguments_calls_in_bounds sampleCycleArgv blankMessages sampleArguments 0 0).2
      sampleCycleOutcome h _ _ hcall⟩

/-! ## What the encoders read -/

/-- C20: for every registered command, two `Arguments` that agree on the declared color slots
`colors[0..nColors-1]` and, when a speed is declared, on `speed`, give the same `Messages`
(or both end in the same out-of-table speed lookup): nothing else of `Arguments` is read. -/
theorem registered_encoder_reads_declared (record : FunctionRecord)
    (hr : record ∈ FUNCTION_RECORDS) (a b : Arguments) (outputs : Messages)
    (hcolors : ∀ i : Fin MAX_NUM_COLORS, (i.val : Int) < record.nColors →
      a.colors.get i = b.colors.get i)
    (hspeed : record.nSpeed = 1 → a.speed = b.speed) :
    (record.function a outputs).map Prod.snd = (record.function b outputs).map Prod.snd := by
  simp only [FUNCTION_RECORDS, List.mem_cons, List.mem_singleton, List.not_mem_nil,
    or_false] at hr
  rcases hr with rfl | rfl | rfl | rfl | rfl | rfl | rfl | rfl | rfl | rfl | rfl | rfl | rfl | rfl
  · exact single_static_color a b outputs (hcolors 0 (by decide))
  · exact single_breathing_reads a b outputs (hcolors 0 (by decide)) (hcolors 1 (by decide))
      (hspeed rfl)
  · exact single_colorcycle_reads a b outputs (hspeed rfl)
  · exact multi_static_colors a b outputs
      (Mathlib.Vector.ext fun i => hcolors i (by have h4 : i.val < 4 := i.isLt; show (i.val : Int) < 4; omega))
  · exact multi_breathing_reads a b outputs
      (Mathlib.Vector.ext fun i => hcolors i (by have h4 : i.val < 4 := i.isLt; show (i.val : Int) < 4; omega)) (hspeed rfl)
  · exact single_static_color _ _ outputs (by rw [memcpyColor_get, memcpyColor_get])
  · exact single_static_color _ _ outputs (by rw [memcpyColor_get, memcpyColor_get])
  · exact single_static_color _ _ outputs (by rw [memcpyColor_get, memcpyColor_get])
  · exact single_static_color _ _ outputs (by rw [memcpyColor_get, memcpyColor_get])
  · exact single_static_color _ _ outputs (by rw [memcpyColor_get, memcpyColor_get])
  · exact single_static_color _ _ outputs (by rw [memcpyColor_get, memcpyColor_get])
  · exact single_static_color _ _ outputs (by rw [memcpyColor_get, memcpyColor_get])
  · exact single_static_color _ _ outputs (by rw [memcpyColor_get, memcpyColor_get])
  · exact multi_static_colors _ _ outputs
      ((rainbow_colors a).trans (rainbow_colors b).symm)

/-- Two `Arguments` that share `colors[0]` only give the same `single_static` message. -/
theorem registered_encoder_reads_declared_witness :
    sampleStaticRecord ∈ FUNCTION_RECORDS ∧
      (∀ i : Fin MAX_NUM_COLORS, (i.val : Int) < sampleStaticRecord.nColors →
        sampleArguments.colors.get i = sampleArguments2.colors.get i) ∧
      (sampleStaticRecord.nSpeed = 1 → sampleArguments.speed = sampleArguments2.speed) ∧
      (sampleStaticRecord.function sampleArguments blankMessages).map Prod.snd =
        (sampleStaticRecord.function sampleArguments2 blankMessages).map Prod.snd :=
  ⟨sampleStaticRecord_mem, by decide, by decide,
    registered_encoder_reads_declared sampleStaticRecord sampleStaticRecord_mem sampleArguments
      sampleArguments2 blankMessages (by decide) (by decide)⟩

end Macrogaura
